import Mathlib

/-!
Verification development for the two media pre-production tools
SceneValidator (`scene_validator.py`) and StoryboardGen (`storyboard_gen.py`).

The Python code is shallowly embedded:
  * scripts are lists of characters;
  * Python dicts are insertion-ordered association lists (`updateAssoc` /
    `lookupAssoc` reproduce dict-assignment and key lookup);
  * Python floats are modelled as exact rationals;
  * the external collaborators (Vision annotation service, Gemini generation,
    image files on disk, the filesystem) are parameters: an `Env` supplying
    per-path annotation results and image sizes, a `String → Bool` filesystem
    oracle, and per-segment / per-shot generation outcomes;
  * exceptions raised before any mutation are modelled with `Except`;
    the per-unit try/except fallbacks are explicit branches.

Wall-clock timestamps (`validation_time`, `created_at`) are not modelled;
no compared property depends on them.
-/

/-! ## Generic list helpers (Python `enumerate`, `range`, and dict semantics) -/

/-- `withIdx s l` pairs every element of `l` with its index, starting at `s`
(Python `enumerate(l, s)`). -/
def withIdx {α : Type} : Nat → List α → List (Nat × α)
  | _, [] => []
  | s, a :: l => (s, a) :: withIdx (s + 1) l

/-- `natRangeFrom s n = [s, s+1, ..., s+n-1]`. -/
def natRangeFrom : Nat → Nat → List Nat
  | _, 0 => []
  | s, n + 1 => s :: natRangeFrom (s + 1) n

/-- Python dict assignment `d[k] = v`: replaces the value in place if the key
exists (keeping the key's position), appends a new entry otherwise. -/
def updateAssoc {α : Type} : List (String × α) → String → α → List (String × α)
  | [], k, v => [(k, v)]
  | (k', v') :: rest, k, v =>
    if k' = k then (k, v) :: rest else (k', v') :: updateAssoc rest k v

/-- Python dict lookup `d.get(k)` / `k in d`. -/
def lookupAssoc {α : Type} : List (String × α) → String → Option α
  | [], _ => none
  | (k', v') :: rest, k => if k' = k then some v' else lookupAssoc rest k

/-- The keys of an association list, in order. -/
def keysOf {α : Type} (d : List (String × α)) : List String := d.map (·.1)

/-! ## Screenplay segmentation (`storyboard_gen.py`, `_parse_script`)

The scene pattern is `(INT\.|EXT\.)\s+(.+?)(?=\n\n|\Z)` with `re.DOTALL`.
Because `\Z` (end of text) is always a valid lookahead position, the
backtracking engine reduces to closed form: the greedy `\s+` takes
`min (whitespace run) (length - (p+5))` characters and the lazy `(.+?)`
stops at the first position `≥` one character later that is either the
end of the text or the start of a blank-line pair `"\n\n"`. -/

/-- The ASCII instances of Python's `\s` character class (also used by
`str.strip()`). -/
def isSpace (c : Char) : Bool :=
  c = ' ' || c = '\t' || c = '\n' || c = '\r' || c = '\x0b' || c = '\x0c'

/-- Python `text.split("\n\n")`: split on each non-overlapping occurrence of
a blank-line pair, scanning left to right, keeping empty pieces. -/
def splitNN : List Char → List (List Char)
  | [] => [[]]
  | '\n' :: '\n' :: rest => [] :: splitNN rest
  | c :: rest => (splitNN rest).modifyHead (c :: ·)

/-- Leading-whitespace strip (left half of Python `str.strip()`). -/
def stripL (l : List Char) : List Char := l.dropWhile isSpace

/-- Trailing-whitespace strip (right half of Python `str.strip()`). -/
def stripR (l : List Char) : List Char := (l.reverse.dropWhile isSpace).reverse

/-- Python `str.strip()`. -/
def pyStrip (l : List Char) : List Char := stripR (stripL l)

/-- Python `s.split('(')[0]`: the prefix before the first `(`. -/
def takeUntilParen (l : List Char) : List Char := l.takeWhile (fun c => c != '(')

/-- The alternation `(INT\.|EXT\.)` tried at position `p` (leftmost branch
first; the branches cannot both match). -/
def tokenAt (t : List Char) (p : Nat) : Option (List Char) :=
  if (t.drop p).take 4 = "INT.".data then some "INT.".data
  else if (t.drop p).take 4 = "EXT.".data then some "EXT.".data
  else none

/-- A position where the lookahead `(?=\n\n|\Z)` succeeds. -/
def isStop (t : List Char) (q : Nat) : Bool :=
  q = t.length || (t.drop q).take 2 = "\n\n".data

/-- Length of the maximal whitespace run starting at index `i`. -/
def wsRun (t : List Char) (i : Nat) : Nat := ((t.drop i).takeWhile isSpace).length

def firstStopAux : Nat → List Char → Nat → Nat
  | 0, t, _ => t.length
  | fuel + 1, t, i => if isStop t i then i else firstStopAux fuel t (i + 1)

/-- The least stop position `≥ i` (the position of the lazy group's end). -/
def firstStop (t : List Char) (i : Nat) : Nat := firstStopAux (t.length + 1 - i) t i

/-- One regex match: full span `[mstart, mend)`, group 1 (the slugline token)
and group 2 (the lazy content). -/
structure RMatch where
  mstart : Nat
  mend : Nat
  tok : List Char
  content : List Char
deriving DecidableEq

/-- Attempt to match the scene pattern exactly at position `p`. -/
def matchAt (t : List Char) (p : Nat) : Option RMatch :=
  match tokenAt t p with
  | none => none
  | some tok =>
    let w := min (wsRun t (p + 4)) (t.length - (p + 5))
    if w = 0 then none
    else
      let q := firstStop t (p + 4 + w + 1)
      some ⟨p, q, tok, (t.drop (p + 4 + w)).take (q - (p + 4 + w))⟩

def searchFromAux : Nat → List Char → Nat → Option RMatch
  | 0, _, _ => none
  | fuel + 1, t, pos =>
    match matchAt t pos with
    | some m => some m
    | none => searchFromAux fuel t (pos + 1)

/-- `scene_pattern.search(text, pos)`: the leftmost match starting at or
after `pos`. -/
def searchFrom (t : List Char) (pos : Nat) : Option RMatch :=
  searchFromAux (t.length + 1 - pos) t pos

def findallAux : Nat → List Char → Nat → List (List Char × List Char)
  | 0, _, _ => []
  | fuel + 1, t, pos =>
    match searchFrom t pos with
    | none => []
    | some m => (m.tok, m.content) :: findallAux fuel t m.mend

/-- `scene_pattern.findall(text)`: the group tuples of all non-overlapping
matches, scanning left to right. -/
def findall (t : List Char) : List (List Char × List Char) :=
  findallAux (t.length + 1) t 0

/-- Stated from the spec's glossary, for comparison with the code: a
slugline is "a line beginning with an interior/exterior location marker".
These are the positions of text lines beginning with `INT.` or `EXT.`. -/
def specSluglineStarts (t : List Char) : List Nat :=
  (natRangeFrom 0 t.length).filter (fun p =>
    (decide (p = 0) || decide (t.getD (p - 1) ' ' = '\n')) && (tokenAt t p).isSome)

/-- One entry of `self.script_scenes` (the spec's "script segment"). -/
structure ScriptScene where
  scene_id : String
  heading : String
  content : List Char
deriving DecidableEq

/-- The fallback branch of `_parse_script`: split on `"\n\n"`, skip chunks
that strip to nothing, number by the chunk's position in the raw split. -/
def fallbackScenes (t : List Char) : List ScriptScene :=
  (withIdx 0 (splitNN t)).filterMap (fun p =>
    if pyStrip p.2 = [] then none
    else some ⟨"scene_" ++ toString (p.1 + 1), "Scene " ++ toString (p.1 + 1), pyStrip p.2⟩)

/-- The formal-screenplay branch of `_parse_script`: one loop step per
`findall` tuple, re-locating each match with `search` from
`current_position`, with the span running to the start of the next found
match (or the end of text). -/
def sluglineScenesAux :
    List (List Char × List Char) → Nat → Nat → Nat → List Char → List ScriptScene
  | [], _, _, _, _ => []
  | (ltype, c) :: rest, i, total, curPos, t =>
    let heading := String.mk (ltype ++ ' ' :: pyStrip (takeUntilParen c))
    match searchFrom t curPos with
    | none => sluglineScenesAux rest (i + 1) total curPos t
    | some m =>
      let sceneEnd :=
        if i < total - 1 then
          match searchFrom t m.mend with
          | some nm => nm.mstart
          | none => t.length
        else t.length
      ⟨"scene_" ++ toString (i + 1), heading,
        pyStrip ((t.drop m.mstart).take (sceneEnd - m.mstart))⟩ ::
        sluglineScenesAux rest (i + 1) total m.mend t

/-- `_parse_script`: slugline branch if the pattern matches anywhere,
blank-line fallback otherwise. -/
def parseScript (t : List Char) : List ScriptScene :=
  let scenes := findall t
  if scenes.isEmpty then fallbackScenes t
  else sluglineScenesAux scenes 0 scenes.length 0 t

/-- A script made of two blocks, each beginning with a slugline, separated
by a blank line (the shape of the claim's "two slugline-prefixed blocks"). -/
def twoBlockText (a b : List Char) : List Char :=
  "INT. ".data ++ a ++ "\n\n".data ++ "EXT. ".data ++ b

/-! ## SceneValidator data model -/

structure Vertex where
  x : ℚ
  y : ℚ
deriving DecidableEq

/-- One localized-object annotation (name, confidence score, normalized
bounding polygon). -/
structure DetObj where
  name : String
  score : ℚ
  vertices : List Vertex
deriving DecidableEq

/-- One face annotation (detection confidence, emotion-likelihood codes,
bounding polygon). -/
structure Face where
  confidence : ℚ := 1
  joy : Nat := 0
  sorrow : Nat := 0
  anger : Nat := 0
  surprise : Nat := 0
  vertices : List Vertex := []
deriving DecidableEq

/-- The per-scene annotation bag filled in by `_analyze_with_vision`. -/
structure Annotations where
  objects : List DetObj := []
  faces : List Face := []
deriving DecidableEq

structure SceneRec where
  path : String
  timestamp : Option String := none
  metadata : List (String × String) := []
  annotations : Annotations := {}
deriving DecidableEq

structure ValidationIssue where
  issue_id : String
  issue_type : String
  severity : String
  description : String
  suggestion : String
  scenes : List String
  location : Option (Int × Int) := none
deriving DecidableEq

structure ValidationResults where
  issues : List ValidationIssue := []
  scene_count : Nat := 0
deriving DecidableEq

/-- Mutable validator state: the scene dict, the separate insertion order,
and the current result set. -/
structure VState where
  scenes : List (String × SceneRec)
  scene_order : List String
  results : ValidationResults
deriving DecidableEq

/-- External collaborators: the Vision annotation service keyed by image
path, and the image size read from the file. -/
structure Env where
  annotate : String → Annotations
  imageSize : String → ℚ × ℚ

def dummyScene : SceneRec := ⟨"", none, [], {}⟩

/-! ## Composition heuristic (`_validate_composition`) -/

/-- The ranking key of `max(objects, key=...)`: `(v[2].x - v[0].x) * (v[2].y - v[0].y)`. -/
def objKey (o : DetObj) : ℚ :=
  ((o.vertices.getD 2 ⟨0, 0⟩).x - (o.vertices.getD 0 ⟨0, 0⟩).x) *
    ((o.vertices.getD 2 ⟨0, 0⟩).y - (o.vertices.getD 0 ⟨0, 0⟩).y)

/-- Python `max` with a key: keeps the current best on ties, so the first
maximal element wins. -/
def pyMaxBy (key : DetObj → ℚ) (x : DetObj) (xs : List DetObj) : DetObj :=
  xs.foldl (fun best o => if key o > key best then o else best) x

/-- The four rule-of-thirds intersection points in pixel space. -/
def thirdsPoints (w h : ℚ) : List (ℚ × ℚ) :=
  [(w / 3, h / 3), (w * 2 / 3, h / 3), (w / 3, h * 2 / 3), (w * 2 / 3, h * 2 / 3)]

/-- Center of the subject's box in pixel space: mean of vertices 0 and 2,
scaled by the image size. -/
def centerOf (o : DetObj) (w h : ℚ) : ℚ × ℚ :=
  (((o.vertices.getD 0 ⟨0, 0⟩).x + (o.vertices.getD 2 ⟨0, 0⟩).x) / 2 * w,
   ((o.vertices.getD 0 ⟨0, 0⟩).y + (o.vertices.getD 2 ⟨0, 0⟩).y) / 2 * h)

/-- Python `int(...)`: truncation toward zero. -/
def pyInt (q : ℚ) : Int := if q < 0 then -Int.floor (-q) else Int.floor q

/-- `any(abs(cx - px) < width/10 and abs(cy - py) < height/10 for point in thirds_points)`. -/
def nearThirds (w h : ℚ) (c : ℚ × ℚ) : Bool :=
  (thirdsPoints w h).any (fun p =>
    decide (|c.1 - p.1| < w / 10) && decide (|c.2 - p.2| < h / 10))

/-- The rule-of-thirds issue emitted for a scene. -/
def thirdsIssue (scene_id : String) (c : ℚ × ℚ) : ValidationIssue :=
  ⟨"comp_thirds_" ++ scene_id, "Composition Rule of Thirds", "Low",
    "Main subject in scene " ++ scene_id ++ " does not align with rule of thirds",
    "Consider repositioning the main subject to a rule of thirds intersection",
    [scene_id], some (pyInt c.1, pyInt c.2)⟩

/-- `_validate_composition`, as a function of the scene's object list and
the image size. -/
def compositionIssues (scene_id : String) (w h : ℚ) (objs : List DetObj) :
    List ValidationIssue :=
  match objs with
  | [] => []
  | o :: rest =>
    let largest := pyMaxBy objKey o rest
    let c := centerOf largest w h
    if nearThirds w h c then [] else [thirdsIssue scene_id c]

/-! ## Continuity heuristic (`_compare_scenes`) -/

/-- `{obj['name']: obj for obj in objects}`: dict comprehension,
first-occurrence key order, last write wins. -/
def dictOfObjs (objs : List DetObj) : List (String × DetObj) :=
  objs.foldl (fun d o => updateAssoc d o.name o) []

def contObjId (s1 s2 n : String) : String :=
  "cont_obj_" ++ s1 ++ "_" ++ s2 ++ "_" ++ n

/-- The object-missing issue for object `n` between two scenes. -/
def missingObjIssue (s1 s2 n : String) : ValidationIssue :=
  ⟨contObjId s1 s2 n, "Continuity Object Missing", "High",
    "Object \x27" ++ n ++ "\x27 present in scene " ++ s1 ++ " is missing in scene " ++ s2,
    "Add \x27" ++ n ++ "\x27 to scene " ++ s2 ++ " or show it being removed",
    [s1, s2], none⟩

/-- The object-persistence half of `_compare_scenes`: iterate the earlier
scene's name→object dict; an issue for each entry with score above 0.7 whose
name is not a key of the later scene's dict. -/
def missingObjectIssues (s1 s2 : String) (objs1 objs2 : List DetObj) :
    List ValidationIssue :=
  (dictOfObjs objs1).filterMap (fun p =>
    if p.2.score > (0.7 : ℚ) ∧ lookupAssoc (dictOfObjs objs2) p.1 = none then
      some (missingObjIssue s1 s2 p.1)
    else none)

/-- Face "center": coordinate sums divided by the literal 4, as in the code. -/
def faceCenter (f : Face) : ℚ × ℚ :=
  ((f.vertices.foldl (fun s v => s + v.x) 0) / 4,
   (f.vertices.foldl (fun s v => s + v.y) 0) / 4)

def contFaceId (s1 s2 : String) (i : Nat) : String :=
  "cont_face_pos_" ++ s1 ++ "_" ++ s2 ++ "_" ++ toString i

/-- The character-position issue for index pair `i`. -/
def facePosIssue (s1 s2 : String) (i : Nat) : ValidationIssue :=
  ⟨contFaceId s1 s2 i, "Continuity Character Position", "Medium",
    "Character position changed dramatically from scene " ++ s1 ++ " to " ++ s2,
    "Add transition scene or adjust character position", [s1, s2], none⟩

/-- The character-displacement half of `_compare_scenes`: guarded by both
face lists being non-empty (Python truthiness) and of equal length; faces
paired positionally by `zip`. -/
def facePositionIssues (s1 s2 : String) (faces1 faces2 : List Face) :
    List ValidationIssue :=
  if faces1.isEmpty || faces2.isEmpty then []
  else if faces1.length = faces2.length then
    (withIdx 0 (faces1.zip faces2)).filterMap (fun p =>
      if |(faceCenter p.2.1).1 - (faceCenter p.2.2).1| > (0.4 : ℚ) then
        some (facePosIssue s1 s2 p.1)
      else none)
  else []

/-- `_compare_scenes` on the two scenes' annotation bags. -/
def compareScenes (s1 s2 : String) (a1 a2 : Annotations) : List ValidationIssue :=
  missingObjectIssues s1 s2 a1.objects a2.objects ++
    facePositionIssues s1 s2 a1.faces a2.faces

/-! ## Validation orchestration (`add_scene`, `validate`) -/

/-- `add_scene`: `FileNotFoundError` (raised before any mutation) if the path
does not exist; otherwise overwrite-or-insert into the dict, warn on
overwrite, and append to the order only if the id is new. Returns the new
state and whether the overwrite warning was logged. -/
def addScene (fs : String → Bool) (st : VState) (scene_path scene_id : String)
    (timestamp : Option String) (metadata : List (String × String)) :
    Except String (VState × Bool) :=
  if fs scene_path then
    let warned := (lookupAssoc st.scenes scene_id).isSome
    let scenes2 := updateAssoc st.scenes scene_id ⟨scene_path, timestamp, metadata, {}⟩
    let order2 :=
      if scene_id ∈ st.scene_order then st.scene_order
      else st.scene_order ++ [scene_id]
    Except.ok ({ st with scenes := scenes2, scene_order := order2 }, warned)
  else Except.error ("Scene file not found: " ++ scene_path)

/-- `_process_scene`: store the Vision annotations for the scene, then run
the composition check against the image size. Returns the updated scene
dict and the issues appended by this scene. -/
def processScene (env : Env) (scenes : List (String × SceneRec)) (sid : String) :
    List (String × SceneRec) × List ValidationIssue :=
  let sc := (lookupAssoc scenes sid).getD dummyScene
  let ann := env.annotate sc.path
  let wh := env.imageSize sc.path
  (updateAssoc scenes sid { sc with annotations := ann },
   compositionIssues sid wh.1 wh.2 ann.objects)

/-- The per-scene analysis loop of `validate`. -/
def processAll (env : Env) :
    List (String × SceneRec) → List String → List (String × SceneRec) × List ValidationIssue
  | scenes, [] => (scenes, [])
  | scenes, sid :: rest =>
    let p := processScene env scenes sid
    let q := processAll env p.1 rest
    (q.1, p.2 ++ q.2)

/-- `range(len(order) - 1)` pairing of adjacent scene ids. -/
def adjacentPairs : List String → List (String × String)
  | [] => []
  | [_] => []
  | a :: b :: rest => (a, b) :: adjacentPairs (b :: rest)

/-- The pairwise continuity loop of `validate`, reading the (by then
annotated) scene dict. -/
def continuityIssues (scenes : List (String × SceneRec)) (order : List String) :
    List ValidationIssue :=
  (adjacentPairs order).flatMap (fun p =>
    compareScenes p.1 p.2
      ((lookupAssoc scenes p.1).getD dummyScene).annotations
      ((lookupAssoc scenes p.2).getD dummyScene).annotations)

/-- `validate`: early return of the current result set when the scene dict
is empty; otherwise a fresh result set is built (the prior one is
discarded), every scene is analyzed in order, then adjacent pairs are
compared left to right. -/
def validate (env : Env) (st : VState) : VState × ValidationResults :=
  if st.scenes.isEmpty then (st, st.results)
  else
    let pa := processAll env st.scenes st.scene_order
    let res : ValidationResults :=
      ⟨pa.2 ++ continuityIssues pa.1 st.scene_order, st.scenes.length⟩
    ({ st with scenes := pa.1, results := res }, res)

/-- Observation helper: the stored path of a scene id (the dummy record's
path when absent). -/
def scenePath (scenes : List (String × SceneRec)) (sid : String) : String :=
  ((lookupAssoc scenes sid).getD dummyScene).path

/-- Validator states reachable through the tool's API from a freshly
constructed `SceneValidator`. -/
inductive Reachable : VState → Prop
  | init : Reachable ⟨[], [], {}⟩
  | add {st st2 : VState} {w : Bool} (fs : String → Bool)
      (path id_ : String) (ts : Option String) (md : List (String × String)) :
      Reachable st → addScene fs st path id_ ts md = Except.ok (st2, w) → Reachable st2
  | run {st : VState} (env : Env) : Reachable st → Reachable (validate env st).1

/-! ## StoryboardGen shot breakdown and frame synthesis -/

structure Shot where
  description : String
  shot_type : String
  camera_movement : String
  characters : List String := []
  visual_elements : List String := []
deriving DecidableEq

/-- Outcome of the per-segment Gemini call in `_analyze_scene_for_shots`:
a parsed JSON shot array, a response that fails JSON parsing, or a raised
generation error. -/
inductive GenOutcome : Type
  | ok (shots : List Shot)
  | badJson
  | failed
deriving DecidableEq

/-- The deterministic fallback: a single wide/static establishing shot. -/
def fallbackShot (heading : String) : Shot :=
  ⟨"Establishing shot for " ++ heading, "WS", "STATIC", [], []⟩

/-- `_analyze_scene_for_shots`: the parsed shots on success, the fallback
list on either failure mode. -/
def analyzeSceneForShots (sc : ScriptScene) (outcome : GenOutcome) : List Shot :=
  match outcome with
  | .ok shots => shots
  | .badJson => [fallbackShot sc.heading]
  | .failed => [fallbackShot sc.heading]

/-- The shot lists produced for all segments, with `gen` giving each
segment's generation outcome by position. -/
def shotsForSegments (segs : List ScriptScene) (gen : Nat → GenOutcome) :
    List (List Shot) :=
  (withIdx 0 segs).map (fun p => analyzeSceneForShots p.2 (gen p.1))

structure StoryboardFrame where
  frame_id : String
  scene_id : String
  description : String
  image_path : String
  timestamp : Option String := none
  shot_type : String
  camera_movement : String
  characters : List String := []
  notes : String
deriving DecidableEq

/-- Outcome of `_generate_image_for_shot` for one shot. -/
inductive ImgOutcome : Type
  | ok
  | failed
deriving DecidableEq

/-- The frame built for shot index `i` (0-based) of a segment; the id embeds
`i + 1`. -/
def mkFrame (sc : ScriptScene) (outDir : String) (i : Nat) (shot : Shot) :
    StoryboardFrame :=
  ⟨sc.scene_id ++ "_shot_" ++ toString (i + 1), sc.scene_id, shot.description,
    outDir ++ "/" ++ (sc.scene_id ++ "_shot_" ++ toString (i + 1)) ++ ".png", none,
    shot.shot_type, shot.camera_movement, shot.characters,
    "Generated for " ++ sc.heading⟩

/-- `_generate_frames_for_shots`: the frame id is computed from the shot's
position in the input list before the image call; a failed image call skips
that shot's frame and continues. -/
def generateFramesForShots (sc : ScriptScene) (shots : List Shot) (outDir : String)
    (img : Nat → ImgOutcome) : List StoryboardFrame :=
  (withIdx 0 shots).filterMap (fun p =>
    if img p.1 = ImgOutcome.ok then some (mkFrame sc outDir p.1 p.2) else none)

/-! # Lemmas and claim theorems -/

/-! ## Generic helper lemmas -/

theorem mem_natRangeFrom : ∀ (n s i : Nat), i ∈ natRangeFrom s n ↔ s ≤ i ∧ i < s + n := by
  intro n
  induction n with
  | zero => intro s i; simp [natRangeFrom]
  | succ n ih =>
    intro s i
    simp [natRangeFrom, ih (s + 1)]
    omega

theorem length_natRangeFrom : ∀ (n s : Nat), (natRangeFrom s n).length = n := by
  intro n
  induction n with
  | zero => intro s; rfl
  | succ n ih => intro s; simp [natRangeFrom, ih (s + 1)]

theorem mem_withIdx {α : Type} (d : α) :
    ∀ (l : List α) (s : Nat) (i : Nat) (x : α),
    (i, x) ∈ withIdx s l ↔ s ≤ i ∧ i - s < l.length ∧ l.getD (i - s) d = x := by
  intro l
  induction l with
  | nil => simp [withIdx]
  | cons a l ih =>
    intro s i x
    simp only [withIdx, List.mem_cons, ih (s + 1), Prod.mk.injEq]
    constructor
    · rintro (⟨rfl, rfl⟩ | ⟨h1, h2, h3⟩)
      · simp
      · refine ⟨by omega, by simp; omega, ?_⟩
        have h4 : i - s = (i - (s + 1)) + 1 := by omega
        rw [h4, List.getD_cons_succ]
        exact h3
    · rintro ⟨h1, h2, h3⟩
      by_cases hs : i = s
      · subst hs
        left
        simp at h3
        exact ⟨rfl, h3.symm⟩
      · right
        have h4 : i - s = (i - (s + 1)) + 1 := by omega
        rw [h4, List.getD_cons_succ] at h3
        refine ⟨by omega, by simp at h2; omega, h3⟩

theorem withIdx_filterMap_eq {α β : Type} (d : α) (t : Nat → α → Bool) (F : Nat → α → β) :
    ∀ (l : List α) (s : Nat),
    (withIdx s l).filterMap (fun p => if t p.1 p.2 = true then some (F p.1 p.2) else none) =
      ((natRangeFrom s l.length).filter (fun i => t i (l.getD (i - s) d))).map
        (fun i => F i (l.getD (i - s) d)) := by
  intro l
  induction l with
  | nil => intro s; rfl
  | cons a l ih =>
    intro s
    have hpt : ∀ i ∈ natRangeFrom (s + 1) l.length,
        (a :: l).getD (i - s) d = l.getD (i - (s + 1)) d := by
      intro i hi
      have hb := (mem_natRangeFrom l.length (s + 1) i).1 hi
      have h2 : i - s = (i - (s + 1)) + 1 := by omega
      rw [h2, List.getD_cons_succ]
    have htail :
        ((natRangeFrom (s + 1) l.length).filter (fun i => t i ((a :: l).getD (i - s) d))).map
            (fun i => F i ((a :: l).getD (i - s) d)) =
          ((natRangeFrom (s + 1) l.length).filter (fun i => t i (l.getD (i - (s + 1)) d))).map
            (fun i => F i (l.getD (i - (s + 1)) d)) := by
      rw [List.filter_congr (fun i hi => by rw [hpt i hi])]
      apply List.map_congr_left
      intro i hi
      rw [hpt i (List.mem_filter.1 hi).1]
    show List.filterMap _ ((s, a) :: withIdx (s + 1) l) = _
    rw [List.filterMap_cons]
    have hlen : (a :: l).length = l.length + 1 := rfl
    rw [hlen]
    show _ = ((s :: natRangeFrom (s + 1) l.length).filter
        (fun i => t i ((a :: l).getD (i - s) d))).map (fun i => F i ((a :: l).getD (i - s) d))
    rw [List.filter_cons]
    have hhead : (a :: l).getD (s - s) d = a := by simp
    rw [hhead]
    by_cases ht : t s a = true
    · simp only [if_pos ht, List.map_cons, hhead]
      rw [htail, ih (s + 1)]
    · rw [if_neg ht, if_neg ht]
      show List.filterMap _ (withIdx (s + 1) l) = _
      rw [htail, ih (s + 1)]

/-! ## Association-list (Python dict) lemmas -/

theorem lookup_update_self {α : Type} :
    ∀ (d : List (String × α)) (k : String) (v : α),
    lookupAssoc (updateAssoc d k v) k = some v := by
  intro d
  induction d with
  | nil => intro k v; simp [updateAssoc, lookupAssoc]
  | cons p rest ih =>
    intro k v
    obtain ⟨k', v'⟩ := p
    by_cases h : k' = k
    · simp [updateAssoc, h, lookupAssoc]
    · simp [updateAssoc, h, lookupAssoc, ih]

theorem lookup_update_ne {α : Type} :
    ∀ (d : List (String × α)) (k k2 : String) (v : α), k2 ≠ k →
    lookupAssoc (updateAssoc d k v) k2 = lookupAssoc d k2 := by
  intro d
  induction d with
  | nil =>
    intro k k2 v h
    simp [updateAssoc, lookupAssoc, Ne.symm h]
  | cons p rest ih =>
    intro k k2 v h
    obtain ⟨k', v'⟩ := p
    by_cases hk : k' = k
    · subst hk
      have hne : k' ≠ k2 := fun hh => h (hh.symm)
      simp [updateAssoc, lookupAssoc, hne, Ne.symm h]
    · simp only [updateAssoc, if_neg hk]
      by_cases hk2 : k' = k2
      · simp [lookupAssoc, hk2]
      · simp [lookupAssoc, hk2, ih k k2 v h]

theorem update_ne_nil {α : Type} (d : List (String × α)) (k : String) (v : α) :
    updateAssoc d k v ≠ [] := by
  cases d with
  | nil => simp [updateAssoc]
  | cons p rest =>
    obtain ⟨k', v'⟩ := p
    by_cases h : k' = k <;> simp [updateAssoc, h]

theorem mem_keys_iff_isSome {α : Type} :
    ∀ (d : List (String × α)) (k : String),
    k ∈ keysOf d ↔ (lookupAssoc d k).isSome = true := by
  intro d
  induction d with
  | nil => simp [keysOf, lookupAssoc]
  | cons p rest ih =>
    intro k
    obtain ⟨k', v'⟩ := p
    rw [show keysOf ((k', v') :: rest) = k' :: keysOf rest from rfl, List.mem_cons]
    rw [show lookupAssoc ((k', v') :: rest) k =
        (if k' = k then some v' else lookupAssoc rest k) from rfl]
    by_cases h : k' = k
    · subst h
      simp
    · rw [if_neg h]
      simp [Ne.symm h, ih k]

theorem keys_update {α : Type} :
    ∀ (d : List (String × α)) (k : String) (v : α),
    keysOf (updateAssoc d k v) =
      if (lookupAssoc d k).isSome then keysOf d else keysOf d ++ [k] := by
  intro d
  induction d with
  | nil => intro k v; simp [updateAssoc, lookupAssoc, keysOf]
  | cons p rest ih =>
    intro k v
    obtain ⟨k', v'⟩ := p
    rw [show updateAssoc ((k', v') :: rest) k v =
        (if k' = k then (k, v) :: rest else (k', v') :: updateAssoc rest k v) from rfl]
    rw [show lookupAssoc ((k', v') :: rest) k =
        (if k' = k then some v' else lookupAssoc rest k) from rfl]
    by_cases h : k' = k
    · rw [if_pos h, if_pos h, if_pos (show (some v').isSome = true from rfl)]
      rw [show keysOf ((k, v) :: rest) = k :: keysOf rest from rfl,
          show keysOf ((k', v') :: rest) = k' :: keysOf rest from rfl, h]
    · rw [if_neg h, if_neg h]
      rw [show keysOf ((k', v') :: updateAssoc rest k v) =
          k' :: keysOf (updateAssoc rest k v) from rfl]
      rw [show keysOf ((k', v') :: rest) = k' :: keysOf rest from rfl]
      rw [ih k v]
      by_cases hs : (lookupAssoc rest k).isSome = true
      · rw [if_pos hs, if_pos hs]
      · rw [if_neg hs, if_neg hs]
        rfl

theorem length_update_of_isSome {α : Type} :
    ∀ (d : List (String × α)) (k : String) (v : α),
    (lookupAssoc d k).isSome = true → (updateAssoc d k v).length = d.length := by
  intro d
  induction d with
  | nil => intro k v h; simp [lookupAssoc] at h
  | cons p rest ih =>
    intro k v h
    obtain ⟨k', v'⟩ := p
    by_cases hk : k' = k
    · simp [updateAssoc, hk]
    · simp only [lookupAssoc, if_neg hk] at h
      simp [updateAssoc, hk, ih k v h]

theorem isSome_lookup_update {α : Type} (d : List (String × α)) (k k2 : String) (v : α) :
    (lookupAssoc (updateAssoc d k v) k2).isSome =
      ((lookupAssoc d k2).isSome || decide (k2 = k)) := by
  by_cases h : k2 = k
  · subst h; simp [lookup_update_self]
  · simp [lookup_update_ne d k k2 v h, h]

/-! ## Python `str.strip()` lemmas -/

theorem head_dropWhile_false {p : Char → Bool} :
    ∀ (l : List Char) (c : Char), (l.dropWhile p).head? = some c → p c = false := by
  intro l
  induction l with
  | nil => simp
  | cons a l ih =>
    intro c
    rw [List.dropWhile_cons]
    split
    · exact ih c
    · rename_i h
      intro hc
      simp at hc
      subst hc
      simpa using h

theorem dropWhile_append_last {p : Char → Bool} (c : Char) (hc : p c = false) :
    ∀ (l : List Char), (l ++ [c]).dropWhile p = l.dropWhile p ++ [c] := by
  intro l
  induction l with
  | nil => simp [List.dropWhile_cons, hc]
  | cons a l ih =>
    rw [List.cons_append, List.dropWhile_cons, List.dropWhile_cons]
    split
    · exact ih
    · simp

theorem stripR_cons_of_false (a : Char) (ha : isSpace a = false) (l : List Char) :
    stripR (a :: l) = a :: stripR l := by
  unfold stripR
  rw [show (a :: l).reverse = l.reverse ++ [a] by simp]
  rw [dropWhile_append_last a ha l.reverse]
  simp

theorem stripR_append_space (c : Char) (hc : isSpace c = true) (l : List Char) :
    stripR (l ++ [c]) = stripR l := by
  unfold stripR
  rw [show (l ++ [c]).reverse = c :: l.reverse by simp]
  rw [List.dropWhile_cons, if_pos hc]

theorem stripR_eq_self (l : List Char)
    (h : ∀ c, l.getLast? = some c → isSpace c = false) : stripR l = l := by
  unfold stripR
  cases hrev : l.reverse with
  | nil =>
    have : l = [] := by simpa using congrArg List.reverse hrev
    simp [this]
  | cons c cs =>
    have hc : l.getLast? = some c := by
      rw [← List.head?_reverse, hrev]; rfl
    rw [List.dropWhile_cons, if_neg (by simp [h c hc])]
    rw [← hrev, List.reverse_reverse]

theorem stripL_eq_self (l : List Char)
    (h : ∀ c, l.head? = some c → isSpace c = false) : stripL l = l := by
  unfold stripL
  cases l with
  | nil => rfl
  | cons a l =>
    rw [List.dropWhile_cons, if_neg (by simp [h a rfl])]

theorem pyStrip_eq_self (l : List Char)
    (hh : ∀ c, l.head? = some c → isSpace c = false)
    (hl : ∀ c, l.getLast? = some c → isSpace c = false) : pyStrip l = l := by
  unfold pyStrip
  rw [stripL_eq_self l hh, stripR_eq_self l hl]

theorem head_pyStrip_false (l : List Char) (c : Char)
    (h : (pyStrip l).head? = some c) : isSpace c = false := by
  unfold pyStrip at h
  cases hx : stripL l with
  | nil => rw [hx] at h; simp [stripR] at h
  | cons a xs =>
    have ha : isSpace a = false := head_dropWhile_false l a (by rw [show stripL l = l.dropWhile isSpace from rfl] at hx; rw [hx]; rfl)
    rw [hx, stripR_cons_of_false a ha xs] at h
    simp at h
    rw [← h]
    exact ha

theorem getLast_pyStrip_false (l : List Char) (c : Char)
    (h : (pyStrip l).getLast? = some c) : isSpace c = false := by
  unfold pyStrip stripR at h
  rw [List.getLast?_reverse] at h
  exact head_dropWhile_false _ c h

theorem takeWhile_eq_self {p : Char → Bool} :
    ∀ (l : List Char), (∀ c ∈ l, p c = true) → l.takeWhile p = l := by
  intro l
  induction l with
  | nil => intro h; rfl
  | cons a l ih =>
    intro h
    rw [List.takeWhile_cons, if_pos (h a (by simp))]
    rw [ih (fun c hc => h c (by simp [hc]))]

/-! ## C1: blank-line fallback segmentation -/

/-- C1 (counterexample): the claim says that in the no-slugline fallback the
surviving segments are numbered by their 1-based position among the
survivors, so the second surviving paragraph of `"A\n\n\n\nB"` would get id
`segment_2`. The code numbers by the chunk's position in the raw
`split("\n\n")` list (and uses the prefix `scene_`), so the second survivor
gets id `scene_3`. -/
theorem fallback_numbering_counterexample :
    parseScript "A\n\n\n\nB".data =
      [⟨"scene_1", "Scene 1", ['A']⟩, ⟨"scene_3", "Scene 3", ['B']⟩] ∧
    (parseScript "A\n\n\n\nB".data).map ScriptScene.scene_id ≠ ["segment_1", "segment_2"] ∧
    (parseScript "A\n\n\n\nB".data).map ScriptScene.scene_id ≠ ["scene_1", "scene_2"] := by
  refine ⟨by decide, by decide, by decide⟩

/-- C1 (amended): for every script text in which the heading pattern finds no
match, segmentation splits the text on `"\n\n"`-delimited paragraphs, skips
every paragraph that strips to whitespace, and gives each surviving segment
the id `scene_{n}` (heading `Scene {n}`) where `n` is the 1-based position of
its paragraph in the raw split — blank paragraphs keep their index slots, so
ids may skip numbers — with each segment's content trimmed of surrounding
whitespace. -/
theorem fallback_segmentation (t : List Char) (h : findall t = []) :
    (∀ sc ∈ parseScript t, ∃ i, i < (splitNN t).length ∧
        sc.scene_id = "scene_" ++ toString (i + 1) ∧
        sc.heading = "Scene " ++ toString (i + 1) ∧
        sc.content = pyStrip ((splitNN t).getD i []) ∧
        pyStrip ((splitNN t).getD i []) ≠ []) ∧
    (∀ i, i < (splitNN t).length → pyStrip ((splitNN t).getD i []) ≠ [] →
        (⟨"scene_" ++ toString (i + 1), "Scene " ++ toString (i + 1),
          pyStrip ((splitNN t).getD i [])⟩ : ScriptScene) ∈ parseScript t) ∧
    (∀ sc ∈ parseScript t, sc.content ≠ [] ∧
        (∀ c, sc.content.head? = some c → isSpace c = false) ∧
        (∀ c, sc.content.getLast? = some c → isSpace c = false)) := by
  have hp : parseScript t = fallbackScenes t := by
    unfold parseScript
    rw [h]
    rfl
  have hmem : ∀ sc : ScriptScene, sc ∈ parseScript t ↔
      ∃ i x, (i, x) ∈ withIdx 0 (splitNN t) ∧ ¬(pyStrip x = []) ∧
        sc = ⟨"scene_" ++ toString (i + 1), "Scene " ++ toString (i + 1), pyStrip x⟩ := by
    intro sc
    rw [hp]
    unfold fallbackScenes
    rw [List.mem_filterMap]
    constructor
    · rintro ⟨⟨i, x⟩, hmem, hfx⟩
      by_cases hx : pyStrip x = []
      · simp [hx] at hfx
      · refine ⟨i, x, hmem, hx, ?_⟩
        rw [if_neg hx] at hfx
        exact (Option.some.inj hfx).symm
    · rintro ⟨i, x, hmem, hx, rfl⟩
      exact ⟨(i, x), hmem, by rw [if_neg hx]⟩
  refine ⟨?_, ?_, ?_⟩
  · intro sc hsc
    obtain ⟨i, x, hw, hx, rfl⟩ := (hmem _).1 hsc
    obtain ⟨-, h2, h3⟩ := (mem_withIdx [] (splitNN t) 0 i x).1 hw
    refine ⟨i, by simpa using h2, rfl, rfl, ?_, ?_⟩
    · rw [show i - 0 = i from rfl] at h3
      rw [h3]
    · rw [show i - 0 = i from rfl] at h3
      rw [h3]
      exact hx
  · intro i hi hne
    refine (hmem _).2 ⟨i, (splitNN t).getD i [], ?_, hne, rfl⟩
    exact (mem_withIdx [] (splitNN t) 0 i _).2 ⟨Nat.zero_le i, by simpa using hi, rfl⟩
  · intro sc hsc
    obtain ⟨i, x, hw, hx, rfl⟩ := (hmem _).1 hsc
    exact ⟨hx, fun c hc => head_pyStrip_false x c hc,
      fun c hc => getLast_pyStrip_false x c hc⟩

/-- C1 (witness for the amended theorem): `"A\n\nB"` has no slugline; the
second raw chunk is `"B"`, surviving as `scene_2`. -/
theorem fallback_segmentation_witness :
    findall "A\n\nB".data = [] ∧
    (⟨"scene_2", "Scene 2", ['B']⟩ : ScriptScene) ∈ parseScript "A\n\nB".data := by
  refine ⟨by decide, ?_⟩
  exact (fallback_segmentation "A\n\nB".data (by decide)).2.1 1 (by decide) (by decide)

/-! ## C2: regex-engine positioning lemmas -/

theorem firstStopAux_eq (t : List Char) (q : Nat) :
    ∀ (fuel i : Nat), i ≤ q → q < i + fuel →
    (∀ r, i ≤ r → r < q → isStop t r = false) → isStop t q = true →
    firstStopAux fuel t i = q := by
  intro fuel
  induction fuel with
  | zero => intro i h1 h2 h3 h4; omega
  | succ fuel ih =>
    intro i h1 h2 h3 h4
    show (if isStop t i then i else firstStopAux fuel t (i + 1)) = q
    by_cases hi : i = q
    · subst hi; rw [if_pos h4]
    · have h5 : isStop t i = false := h3 i le_rfl (by omega)
      rw [h5]
      show firstStopAux fuel t (i + 1) = q
      exact ih (i + 1) (by omega) (by omega) (fun r hr1 hr2 => h3 r (by omega) hr2) h4

theorem firstStop_eq (t : List Char) (i q : Nat) (h1 : i ≤ q) (h4 : isStop t q = true)
    (h3 : ∀ r, i ≤ r → r < q → isStop t r = false) (hq : q ≤ t.length) :
    firstStop t i = q :=
  firstStopAux_eq t q (t.length + 1 - i) i h1 (by omega) h3 h4

theorem tokenAt_pos_lt (t : List Char) (p : Nat) (tok : List Char)
    (h : tokenAt t p = some tok) : p < t.length := by
  by_contra hc
  push_neg at hc
  have hd : t.drop p = [] := List.drop_eq_nil_of_le hc
  unfold tokenAt at h
  rw [hd] at h
  simp at h

theorem matchAt_token_none (t : List Char) (p : Nat) (h : tokenAt t p = none) :
    matchAt t p = none := by
  unfold matchAt
  rw [h]

theorem matchAt_pos_lt (t : List Char) (p : Nat) (m : RMatch)
    (hm : matchAt t p = some m) : p < t.length := by
  cases htok : tokenAt t p with
  | none => rw [matchAt_token_none t p htok] at hm; exact Option.noConfusion hm
  | some tok => exact tokenAt_pos_lt t p tok htok

theorem searchFromAux_eq (t : List Char) (p : Nat) (m : RMatch) (hm : matchAt t p = some m) :
    ∀ (fuel pos : Nat), pos ≤ p → p < pos + fuel →
    (∀ r, pos ≤ r → r < p → matchAt t r = none) →
    searchFromAux fuel t pos = some m := by
  intro fuel
  induction fuel with
  | zero => intro pos h1 h2 h3; omega
  | succ fuel ih =>
    intro pos h1 h2 h3
    show (match matchAt t pos with
      | some m => some m
      | none => searchFromAux fuel t (pos + 1)) = some m
    by_cases hp : pos = p
    · subst hp; rw [hm]
    · have h5 : matchAt t pos = none := h3 pos le_rfl (by omega)
      rw [h5]
      exact ih (pos + 1) (by omega) (by omega) (fun r hr1 hr2 => h3 r (by omega) hr2)

theorem searchFrom_eq (t : List Char) (pos p : Nat) (m : RMatch)
    (h1 : pos ≤ p) (hm : matchAt t p = some m)
    (h3 : ∀ r, pos ≤ r → r < p → matchAt t r = none) :
    searchFrom t pos = some m := by
  have hp : p < t.length := matchAt_pos_lt t p m hm
  exact searchFromAux_eq t p m hm (t.length + 1 - pos) pos h1 (by omega) h3

theorem matchAt_at_length (t : List Char) : matchAt t t.length = none := by
  apply matchAt_token_none
  unfold tokenAt
  rw [List.drop_length]
  simp

theorem searchFrom_at_length (t : List Char) : searchFrom t t.length = none := by
  unfold searchFrom
  rw [show t.length + 1 - t.length = 1 from by omega]
  show (match matchAt t t.length with
    | some m => some m
    | none => searchFromAux 0 t (t.length + 1)) = none
  rw [matchAt_at_length]
  rfl

theorem findallAux_cons (fuel : Nat) (t : List Char) (pos : Nat) (m : RMatch)
    (h : searchFrom t pos = some m) :
    findallAux (fuel + 1) t pos = (m.tok, m.content) :: findallAux fuel t m.mend := by
  show (match searchFrom t pos with
    | none => []
    | some m => (m.tok, m.content) :: findallAux fuel t m.mend) = _
  rw [h]

theorem findallAux_nil (fuel : Nat) (t : List Char) (pos : Nat)
    (h : searchFrom t pos = none) : findallAux (fuel + 1) t pos = [] := by
  show (match searchFrom t pos with
    | none => []
    | some m => (m.tok, m.content) :: findallAux fuel t m.mend) = _
  rw [h]

theorem take_two_head (l : List Char) (x y : Char) (h : l.take 2 = [x, y]) :
    l.get? 0 = some x := by
  cases l with
  | nil => simp at h
  | cons a l' =>
    simp at h
    rw [show (a :: l').get? 0 = some a from rfl, h.1]

theorem isStop_false_of (t : List Char) (r : Nat) (h1 : r ≠ t.length)
    (h2 : ∀ c, t.get? r = some c → c ≠ '\n') : isStop t r = false := by
  unfold isStop
  rw [Bool.or_eq_false_iff]
  refine ⟨by simp [h1], ?_⟩
  rw [decide_eq_false_iff_not]
  intro hc
  have hh : (t.drop r).get? 0 = some '\n' :=
    take_two_head (t.drop r) '\n' '\n' (by rw [hc])
  rw [List.get?_drop] at hh
  exact h2 '\n' (by simpa using hh) rfl

theorem isStop_of_take (t : List Char) (q : Nat)
    (h : (t.drop q).take 2 = "\n\n".data) : isStop t q = true := by
  unfold isStop
  rw [h]
  simp

theorem isStop_at_length (t : List Char) : isStop t t.length = true := by
  unfold isStop
  simp

/-! ## C2: structure of the two-block text -/

theorem twoBlock_len (a b : List Char) :
    (twoBlockText a b).length = 12 + a.length + b.length := by
  have h1 : ("INT. ".data).length = 5 := rfl
  have h2 : ("\n\n".data).length = 2 := rfl
  have h3 : ("EXT. ".data).length = 5 := rfl
  simp [twoBlockText, h1, h2, h3]
  omega

theorem twoBlock_assoc (a b : List Char) :
    twoBlockText a b =
      ("INT. ".data ++ a) ++ ("\n\n".data ++ ("EXT. ".data ++ b)) := by
  simp [twoBlockText]

theorem twoBlock_drop5 (a b : List Char) :
    (twoBlockText a b).drop 5 = ((a ++ "\n\n".data) ++ "EXT. ".data) ++ b := rfl

theorem twoBlock_dropNN (a b : List Char) :
    (twoBlockText a b).drop (5 + a.length) = '\n' :: '\n' :: ("EXT. ".data ++ b) := by
  rw [twoBlock_assoc]
  rw [show 5 + a.length = ("INT. ".data ++ a).length from by
    rw [List.length_append, show ("INT. ".data).length = 5 from rfl]]
  rw [List.drop_left]
  rfl

theorem twoBlock_drop6 (a b : List Char) :
    (twoBlockText a b).drop (6 + a.length) = '\n' :: ("EXT. ".data ++ b) := by
  rw [show 6 + a.length = 5 + a.length + 1 from by omega]
  rw [← List.drop_drop, twoBlock_dropNN]
  rfl

theorem twoBlock_dropE (a b : List Char) :
    (twoBlockText a b).drop (7 + a.length) = "EXT. ".data ++ b := by
  rw [show 7 + a.length = 5 + a.length + 2 from by omega]
  rw [← List.drop_drop, twoBlock_dropNN]
  rfl

theorem twoBlock_drop11 (a b : List Char) :
    (twoBlockText a b).drop (11 + a.length) = ' ' :: b := by
  rw [show 11 + a.length = 7 + a.length + 4 from by omega]
  rw [← List.drop_drop, twoBlock_dropE]
  rfl

theorem twoBlock_dropB (a b : List Char) :
    (twoBlockText a b).drop (12 + a.length) = b := by
  rw [show 12 + a.length = 7 + a.length + 5 from by omega]
  rw [← List.drop_drop, twoBlock_dropE]
  rfl

theorem twoBlock_get_a (a b : List Char) (j : Nat) (hj : j < a.length) :
    (twoBlockText a b).get? (5 + j) = a.get? j := by
  have h := List.get?_drop (twoBlockText a b) 5 j
  rw [twoBlock_drop5] at h
  rw [← h]
  have hNN : ("\n\n".data).length = 2 := rfl
  have hE : ("EXT. ".data).length = 5 := rfl
  rw [List.get?_append (by simp [hNN, hE]; omega),
      List.get?_append (by simp [hNN]; omega),
      List.get?_append hj]

theorem twoBlock_get_b (a b : List Char) (j : Nat) :
    (twoBlockText a b).get? (12 + a.length + j) = b.get? j := by
  have h := List.get?_drop (twoBlockText a b) (12 + a.length) j
  rw [twoBlock_dropB] at h
  rw [← h]

theorem getLast?_append_ne_nil {l l' : List Char} (h : l' ≠ []) :
    (l ++ l').getLast? = l'.getLast? := by
  rw [List.getLast?_append]
  cases hl : l'.getLast? with
  | none =>
    exact absurd (by simpa using hl) h
  | some c => rfl

/-! ## C2: the two matches of the two-block text -/

theorem matchAt_eq (t : List Char) (p : Nat) (tok : List Char) (q : Nat)
    (htok : tokenAt t p = some tok)
    (hws : wsRun t (p + 4) = 1)
    (hlen : p + 6 ≤ t.length)
    (hq : firstStop t (p + 6) = q) :
    matchAt t p = some ⟨p, q, tok, (t.drop (p + 5)).take (q - (p + 5))⟩ := by
  unfold matchAt
  rw [htok]
  dsimp only
  rw [hws]
  have hmin : min 1 (t.length - (p + 5)) = 1 := by omega
  rw [hmin]
  rw [if_neg one_ne_zero]
  rw [show p + 4 + 1 + 1 = p + 6 from by omega, show p + 4 + 1 = p + 5 from by omega, hq]

theorem twoBlock_wsRun0 (a b : List Char) (ah : Char) (as : List Char) (hcons : a = ah :: as)
    (hah : isSpace ah = false) : wsRun (twoBlockText a b) 4 = 1 := by
  subst hcons
  unfold wsRun
  show ((' ' :: ah :: (((as ++ "\n\n".data) ++ "EXT. ".data) ++ b)).takeWhile isSpace).length = 1
  rw [List.takeWhile_cons, if_pos (by decide)]
  rw [List.takeWhile_cons, if_neg (by simp [hah])]
  rfl

theorem twoBlock_wsRunE (a b : List Char) (bh : Char) (bs : List Char) (hcons : b = bh :: bs)
    (hbh : isSpace bh = false) : wsRun (twoBlockText a b) (7 + a.length + 4) = 1 := by
  unfold wsRun
  rw [show 7 + a.length + 4 = 11 + a.length from by omega, twoBlock_drop11]
  subst hcons
  rw [List.takeWhile_cons, if_pos (by decide)]
  rw [List.takeWhile_cons, if_neg (by simp [hbh])]
  rfl

theorem twoBlock_firstStop0 (a b : List Char) (ha0 : a ≠ []) (ha3 : '\n' ∉ a) :
    firstStop (twoBlockText a b) 6 = 5 + a.length := by
  have hlen := twoBlock_len a b
  have hla : 1 ≤ a.length := by
    cases a with
    | nil => exact absurd rfl ha0
    | cons x xs => simp
  apply firstStop_eq
  · omega
  · exact isStop_of_take _ _ (by rw [twoBlock_dropNN]; rfl)
  · intro r hr1 hr2
    apply isStop_false_of
    · omega
    · intro c hc hcn
      subst hcn
      have hj : r - 5 < a.length := by omega
      have hg := twoBlock_get_a a b (r - 5) hj
      rw [show 5 + (r - 5) = r from by omega] at hg
      rw [hg] at hc
      exact ha3 (List.get?_mem hc)
  · omega

theorem twoBlock_firstStopE (a b : List Char) (hb0 : b ≠ []) (hb3 : '\n' ∉ b) :
    firstStop (twoBlockText a b) (7 + a.length + 6) = 12 + a.length + b.length := by
  have hlen := twoBlock_len a b
  have hlb : 1 ≤ b.length := by
    cases b with
    | nil => exact absurd rfl hb0
    | cons x xs => simp
  apply firstStop_eq
  · omega
  · rw [show 12 + a.length + b.length = (twoBlockText a b).length from hlen.symm]
    exact isStop_at_length _
  · intro r hr1 hr2
    apply isStop_false_of
    · omega
    · intro c hc hcn
      subst hcn
      have hg := twoBlock_get_b a b (r - (12 + a.length))
      rw [show 12 + a.length + (r - (12 + a.length)) = r from by omega] at hg
      rw [hg] at hc
      exact hb3 (List.get?_mem hc)
  · omega

theorem twoBlock_m1 (a b : List Char) (ah : Char) (as : List Char) (hcons : a = ah :: as)
    (hah : isSpace ah = false) (ha3 : '\n' ∉ a) :
    matchAt (twoBlockText a b) 0 = some ⟨0, 5 + a.length, "INT.".data, a⟩ := by
  have hlen := twoBlock_len a b
  have hm := matchAt_eq (twoBlockText a b) 0 "INT.".data (5 + a.length)
    (by subst hcons; rfl)
    (twoBlock_wsRun0 a b ah as hcons hah)
    (by subst hcons; simp at hlen ⊢; omega)
    (twoBlock_firstStop0 a b (by subst hcons; simp) ha3)
  rw [hm]
  have hcontent : ((twoBlockText a b).drop (0 + 5)).take (5 + a.length - (0 + 5)) = a := by
    show ((twoBlockText a b).drop 5).take (5 + a.length - 5) = a
    rw [twoBlock_drop5, show 5 + a.length - 5 = a.length from by omega]
    rw [List.append_assoc, List.append_assoc]
    exact List.take_left _ _
  rw [hcontent]

theorem twoBlock_m2 (a b : List Char) (bh : Char) (bs : List Char) (hcons : b = bh :: bs)
    (hbh : isSpace bh = false) (hb3 : '\n' ∉ b) :
    matchAt (twoBlockText a b) (7 + a.length) =
      some ⟨7 + a.length, 12 + a.length + b.length, "EXT.".data, b⟩ := by
  have hlen := twoBlock_len a b
  have htok : tokenAt (twoBlockText a b) (7 + a.length) = some "EXT.".data := by
    unfold tokenAt
    rw [twoBlock_dropE]
    rfl
  have hm := matchAt_eq (twoBlockText a b) (7 + a.length) "EXT.".data
    (12 + a.length + b.length)
    htok
    (twoBlock_wsRunE a b bh bs hcons hbh)
    (by subst hcons; simp at hlen ⊢; omega)
    (twoBlock_firstStopE a b (by subst hcons; simp) hb3)
  rw [hm]
  have hcontent : ((twoBlockText a b).drop (7 + a.length + 5)).take
      (12 + a.length + b.length - (7 + a.length + 5)) = b := by
    rw [show 7 + a.length + 5 = 12 + a.length from by omega, twoBlock_dropB]
    rw [show 12 + a.length + b.length - (12 + a.length) = b.length from by omega]
    exact List.take_length b
  rw [hcontent]

theorem twoBlock_tokenAt_NN (a b : List Char) :
    tokenAt (twoBlockText a b) (5 + a.length) = none := by
  unfold tokenAt
  rw [twoBlock_dropNN]
  rfl

theorem twoBlock_tokenAt_6 (a b : List Char) :
    tokenAt (twoBlockText a b) (6 + a.length) = none := by
  unfold tokenAt
  rw [twoBlock_drop6]
  rfl

theorem twoBlock_s1 (a b : List Char) (ah : Char) (as : List Char) (hcons : a = ah :: as)
    (hah : isSpace ah = false) (ha3 : '\n' ∉ a) :
    searchFrom (twoBlockText a b) 0 = some ⟨0, 5 + a.length, "INT.".data, a⟩ :=
  searchFrom_eq _ 0 0 _ le_rfl (twoBlock_m1 a b ah as hcons hah ha3)
    (fun r hr1 hr2 => absurd hr2 (by omega))

theorem twoBlock_s2 (a b : List Char) (bh : Char) (bs : List Char) (hcons : b = bh :: bs)
    (hbh : isSpace bh = false) (hb3 : '\n' ∉ b) :
    searchFrom (twoBlockText a b) (5 + a.length) =
      some ⟨7 + a.length, 12 + a.length + b.length, "EXT.".data, b⟩ := by
  apply searchFrom_eq _ (5 + a.length) (7 + a.length) _ (by omega)
    (twoBlock_m2 a b bh bs hcons hbh hb3)
  intro r hr1 hr2
  have hr : r = 5 + a.length ∨ r = 6 + a.length := by omega
  rcases hr with rfl | rfl
  · exact matchAt_token_none _ _ (twoBlock_tokenAt_NN a b)
  · exact matchAt_token_none _ _ (twoBlock_tokenAt_6 a b)

/-! ## C2: findall and parseScript on the two-block text -/

theorem twoBlock_findall (a b : List Char)
    (ah : Char) (as : List Char) (hconsA : a = ah :: as) (hah : isSpace ah = false)
    (ha3 : '\n' ∉ a)
    (bh : Char) (bs : List Char) (hconsB : b = bh :: bs) (hbh : isSpace bh = false)
    (hb3 : '\n' ∉ b) :
    findall (twoBlockText a b) = [("INT.".data, a), ("EXT.".data, b)] := by
  have hlen := twoBlock_len a b
  have s1 := twoBlock_s1 a b ah as hconsA hah ha3
  have s2 := twoBlock_s2 a b bh bs hconsB hbh hb3
  have hnone : searchFrom (twoBlockText a b) (12 + a.length + b.length) = none := by
    have h := searchFrom_at_length (twoBlockText a b)
    rw [hlen] at h
    exact h
  show findallAux ((twoBlockText a b).length + 1) (twoBlockText a b) 0 = _
  rw [hlen]
  rw [findallAux_cons _ _ _ _ s1]
  dsimp only
  rw [show 12 + a.length + b.length = 11 + a.length + b.length + 1 from by omega]
  rw [findallAux_cons _ _ _ _ s2]
  dsimp only
  rw [show 11 + a.length + b.length = 10 + a.length + b.length + 1 from by omega]
  rw [findallAux_nil _ _ _ hnone]

theorem strip_takeUntilParen_eq (x : List Char)
    (hx1 : ∀ c, x.head? = some c → isSpace c = false)
    (hx2 : ∀ c, x.getLast? = some c → isSpace c = false)
    (hx4 : '(' ∉ x) :
    pyStrip (takeUntilParen x) = x := by
  have ht : takeUntilParen x = x := by
    apply takeWhile_eq_self
    intro c hc
    simp only [bne_iff_ne, ne_eq]
    intro heq
    exact hx4 (heq ▸ hc)
  rw [ht]
  exact pyStrip_eq_self x hx1 hx2

theorem twoBlock_content1 (a b : List Char) (ha0 : a ≠ [])
    (ha2 : ∀ c, a.getLast? = some c → isSpace c = false) :
    pyStrip ((twoBlockText a b).take (7 + a.length)) = "INT. ".data ++ a := by
  have htake : (twoBlockText a b).take (7 + a.length) =
      ("INT. ".data ++ a) ++ "\n\n".data := by
    have hg : twoBlockText a b =
        (("INT. ".data ++ a) ++ "\n\n".data) ++ ("EXT. ".data ++ b) := by
      simp [twoBlockText]
    rw [hg]
    rw [show 7 + a.length = ((("INT. ".data ++ a) ++ "\n\n".data)).length from by
      simp [show ("INT. ".data).length = 5 from rfl, show ("\n\n".data).length = 2 from rfl]
      omega]
    exact List.take_left _ _
  rw [htake]
  unfold pyStrip
  rw [stripL_eq_self _ (fun c hc => by
    rw [show ((("INT. ".data ++ a) ++ "\n\n".data)).head? = some 'I' from rfl] at hc
    cases hc
    decide)]
  rw [show ("INT. ".data ++ a) ++ "\n\n".data =
      (((("INT. ".data ++ a) ++ ['\n']) ++ ['\n'])) from by simp]
  rw [stripR_append_space '\n' (by decide), stripR_append_space '\n' (by decide)]
  apply stripR_eq_self
  intro c hc
  rw [getLast?_append_ne_nil ha0] at hc
  exact ha2 c hc

theorem twoBlock_content2 (a b : List Char) (hb0 : b ≠ [])
    (hb2 : ∀ c, b.getLast? = some c → isSpace c = false) :
    pyStrip (((twoBlockText a b).drop (7 + a.length)).take
      ((twoBlockText a b).length - (7 + a.length))) = "EXT. ".data ++ b := by
  rw [twoBlock_dropE, twoBlock_len]
  rw [show 12 + a.length + b.length - (7 + a.length) =
      ("EXT. ".data ++ b).length from by
    simp [show ("EXT. ".data).length = 5 from rfl]
    omega]
  rw [List.take_length]
  unfold pyStrip
  rw [stripL_eq_self _ (fun c hc => by
    rw [show (("EXT. ".data ++ b)).head? = some 'E' from rfl] at hc
    cases hc
    decide)]
  apply stripR_eq_self
  intro c hc
  rw [getLast?_append_ne_nil hb0] at hc
  exact hb2 c hc

/-! ## C2: claim theorems -/

/-- C2 (counterexample): `"INT. A\nEXT. B\n\nC"` contains two sluglines in
the spec's sense (lines beginning with an interior/exterior marker, at
positions 0 and 7), yet segmentation produces a single segment whose span
runs to the end of the text, past the second slugline: the heading match
beginning at `INT.` extends to the next blank line, swallowing the `EXT.`
line, so no split happens at the second slugline. -/
theorem slugline_split_counterexample :
    specSluglineStarts "INT. A\nEXT. B\n\nC".data = [0, 7] ∧
    (parseScript "INT. A\nEXT. B\n\nC".data).length = 1 ∧
    parseScript "INT. A\nEXT. B\n\nC".data =
      [⟨"scene_1", "INT. A\nEXT. B", "INT. A\nEXT. B\n\nC".data⟩] := by
  refine ⟨by decide, by decide, by decide⟩

/-- C2 (amended): when the text consists of two blank-line-separated blocks
each beginning with a slugline (and each slugline's rest-of-block is
non-empty, free of newlines and parentheses, and not padded with
whitespace), segmentation yields exactly two segments with ids `scene_1`
and `scene_2`, each spanning from its own slugline up to but not including
the next slugline (the trailing blank line being trimmed), the last running
to the end of the text. Sluglines occurring inside a block (before the
next blank line) do not start a segment. -/
theorem slugline_two_block_segmentation (a b : List Char)
    (ha0 : a ≠ []) (hb0 : b ≠ [])
    (ha1 : ∀ c, a.head? = some c → isSpace c = false)
    (ha2 : ∀ c, a.getLast? = some c → isSpace c = false)
    (ha3 : '\n' ∉ a) (ha4 : '(' ∉ a)
    (hb1 : ∀ c, b.head? = some c → isSpace c = false)
    (hb2 : ∀ c, b.getLast? = some c → isSpace c = false)
    (hb3 : '\n' ∉ b) (hb4 : '(' ∉ b) :
    parseScript (twoBlockText a b) =
      [⟨"scene_1", String.mk ("INT.".data ++ ' ' :: a), "INT. ".data ++ a⟩,
       ⟨"scene_2", String.mk ("EXT.".data ++ ' ' :: b), "EXT. ".data ++ b⟩] := by
  obtain ⟨ah, as, hconsA⟩ : ∃ ah as, a = ah :: as := by
    cases a with
    | nil => exact absurd rfl ha0
    | cons x xs => exact ⟨x, xs, rfl⟩
  obtain ⟨bh, bs, hconsB⟩ : ∃ bh bs, b = bh :: bs := by
    cases b with
    | nil => exact absurd rfl hb0
    | cons x xs => exact ⟨x, xs, rfl⟩
  have hah : isSpace ah = false := ha1 ah (by rw [hconsA]; rfl)
  have hbh : isSpace bh = false := hb1 bh (by rw [hconsB]; rfl)
  have hfind := twoBlock_findall a b ah as hconsA hah ha3 bh bs hconsB hbh hb3
  have s1 := twoBlock_s1 a b ah as hconsA hah ha3
  have s2 := twoBlock_s2 a b bh bs hconsB hbh hb3
  have hc1 := twoBlock_content1 a b ha0 ha2
  have hc2 := twoBlock_content2 a b hb0 hb2
  have hha := strip_takeUntilParen_eq a ha1 ha2 ha4
  have hhb := strip_takeUntilParen_eq b hb1 hb2 hb4
  unfold parseScript
  rw [hfind]
  dsimp only
  rw [show ([("INT.".data, a), ("EXT.".data, b)] :
      List (List Char × List Char)).isEmpty = false from rfl]
  rw [if_neg (by simp)]
  rw [show ([("INT.".data, a), ("EXT.".data, b)] :
      List (List Char × List Char)).length = 2 from rfl]
  simp only [sluglineScenesAux, s1, s2, hha, hhb]
  norm_num
  refine ⟨⟨by decide, ?_⟩, by decide, ?_⟩
  · exact hc1
  · exact hc2

/-- C2 (witness for the amended theorem): the concrete two-block script
`"INT. A\n\nEXT. B"`. -/
theorem slugline_two_block_witness :
    parseScript (twoBlockText ['A'] ['B']) =
      [⟨"scene_1", String.mk ("INT.".data ++ ' ' :: ['A']), "INT. ".data ++ ['A']⟩,
       ⟨"scene_2", String.mk ("EXT.".data ++ ' ' :: ['B']), "EXT. ".data ++ ['B']⟩] :=
  slugline_two_block_segmentation ['A'] ['B'] (by decide) (by decide)
    (by intro c hc; simp at hc; subst hc; decide)
    (by intro c hc; simp at hc; subst hc; decide)
    (by decide) (by decide)
    (by intro c hc; simp at hc; subst hc; decide)
    (by intro c hc; simp at hc; subst hc; decide)
    (by decide) (by decide)

/-! ## C3: composition heuristic -/

theorem pyMaxBy_mem (key : DetObj → ℚ) :
    ∀ (xs : List DetObj) (x : DetObj), pyMaxBy key x xs ∈ x :: xs := by
  intro xs
  induction xs with
  | nil => intro x; simp [pyMaxBy]
  | cons o rest ih =>
    intro x
    have hstep : pyMaxBy key x (o :: rest) =
        pyMaxBy key (if key o > key x then o else x) rest := rfl
    rw [hstep]
    have := ih (if key o > key x then o else x)
    rcases List.mem_cons.1 this with heq | hmem
    · rw [heq]
      by_cases hc : key o > key x
      · rw [if_pos hc]; simp
      · rw [if_neg hc]; simp
    · simp [List.mem_cons.2 (Or.inr hmem), List.mem_cons]

theorem pyMaxBy_le (key : DetObj → ℚ) :
    ∀ (xs : List DetObj) (x : DetObj),
    key x ≤ key (pyMaxBy key x xs) ∧ ∀ y ∈ xs, key y ≤ key (pyMaxBy key x xs) := by
  intro xs
  induction xs with
  | nil => intro x; simp [pyMaxBy]
  | cons o rest ih =>
    intro x
    have hstep : pyMaxBy key x (o :: rest) =
        pyMaxBy key (if key o > key x then o else x) rest := rfl
    rw [hstep]
    obtain ⟨h1, h2⟩ := ih (if key o > key x then o else x)
    have hx : key x ≤ key (if key o > key x then o else x) := by
      by_cases hc : key o > key x
      · rw [if_pos hc]; exact le_of_lt hc
      · rw [if_neg hc]
    have ho : key o ≤ key (if key o > key x then o else x) := by
      by_cases hc : key o > key x
      · rw [if_pos hc]
      · rw [if_neg hc]; exact not_lt.1 hc
    refine ⟨le_trans hx h1, ?_⟩
    intro y hy
    rcases List.mem_cons.1 hy with rfl | hmem
    · exact le_trans ho h1
    · exact h2 y hmem

theorem nearThirds_iff (w h : ℚ) (c : ℚ × ℚ) :
    nearThirds w h c = true ↔
      ∃ p ∈ thirdsPoints w h, |c.1 - p.1| < w / 10 ∧ |c.2 - p.2| < h / 10 := by
  unfold nearThirds
  rw [List.any_eq_true]
  constructor
  · rintro ⟨p, hp, hb⟩
    rw [Bool.and_eq_true, decide_eq_true_eq, decide_eq_true_eq] at hb
    exact ⟨p, hp, hb⟩
  · rintro ⟨p, hp, h1, h2⟩
    exact ⟨p, hp, by rw [Bool.and_eq_true, decide_eq_true_eq, decide_eq_true_eq]; exact ⟨h1, h2⟩⟩

/-- C3 (confirmed): with at least one detected object, the subject is the
first object of maximal key `(v[2].x - v[0].x) * (v[2].y - v[0].y)`; exactly
one Low-severity rule-of-thirds issue carrying the truncated pixel center as
location is emitted iff the center fails the `w/10`/`h/10` window at every
one of the four thirds points; a scene with no objects emits nothing. -/
theorem composition_rule_of_thirds (sid : String) (w h : ℚ) (o : DetObj)
    (rest : List DetObj) :
    (pyMaxBy objKey o rest ∈ o :: rest ∧
      ∀ o2 ∈ o :: rest, objKey o2 ≤ objKey (pyMaxBy objKey o rest)) ∧
    (compositionIssues sid w h (o :: rest) =
        [thirdsIssue sid (centerOf (pyMaxBy objKey o rest) w h)] ↔
      ∀ p ∈ thirdsPoints w h,
        ¬(|(centerOf (pyMaxBy objKey o rest) w h).1 - p.1| < w / 10 ∧
          |(centerOf (pyMaxBy objKey o rest) w h).2 - p.2| < h / 10)) ∧
    ((∃ p ∈ thirdsPoints w h,
        |(centerOf (pyMaxBy objKey o rest) w h).1 - p.1| < w / 10 ∧
        |(centerOf (pyMaxBy objKey o rest) w h).2 - p.2| < h / 10) →
      compositionIssues sid w h (o :: rest) = []) ∧
    compositionIssues sid w h [] = [] := by
  have hunfold : compositionIssues sid w h (o :: rest) =
      (if nearThirds w h (centerOf (pyMaxBy objKey o rest) w h) then []
       else [thirdsIssue sid (centerOf (pyMaxBy objKey o rest) w h)]) := rfl
  refine ⟨⟨pyMaxBy_mem objKey rest o, ?_⟩, ?_, ?_, rfl⟩
  · intro o2 ho2
    obtain ⟨h1, h2⟩ := pyMaxBy_le objKey rest o
    rcases List.mem_cons.1 ho2 with rfl | hmem
    · exact h1
    · exact h2 o2 hmem
  · rw [hunfold]
    by_cases hn : nearThirds w h (centerOf (pyMaxBy objKey o rest) w h) = true
    · rw [if_pos hn]
      obtain ⟨p, hp, hpp⟩ := (nearThirds_iff w h _).1 hn
      constructor
      · intro habs
        exact absurd habs (by simp)
      · intro hall
        exact absurd hpp (hall p hp)
    · rw [if_neg hn]
      constructor
      · intro _ p hp hpp
        exact hn ((nearThirds_iff w h _).2 ⟨p, hp, hpp⟩)
      · intro _
        rfl
  · rintro ⟨p, hp, hpp⟩
    rw [hunfold, if_pos ((nearThirds_iff w h _).2 ⟨p, hp, hpp⟩)]

/-- C3 (witness): one detected object centered in the middle of a 300x300
image is not near any thirds point, so exactly one Low issue is emitted with
the computed center as location; the empty scene emits nothing. -/
theorem composition_rule_of_thirds_witness :
    compositionIssues "s1" 300 300
      [⟨"person", 9/10, [⟨2/5, 2/5⟩, ⟨3/5, 2/5⟩, ⟨3/5, 3/5⟩, ⟨2/5, 3/5⟩]⟩] =
      [thirdsIssue "s1" (150, 150)] ∧
    compositionIssues "s1" 300 300 [] = [] := by
  constructor
  · have hc : centerOf (pyMaxBy objKey
        ⟨"person", 9/10, [⟨2/5, 2/5⟩, ⟨3/5, 2/5⟩, ⟨3/5, 3/5⟩, ⟨2/5, 3/5⟩]⟩ []) 300 300 =
        ((150 : ℚ), (150 : ℚ)) := by
      simp [pyMaxBy, centerOf]
      norm_num
    have hfar := ((composition_rule_of_thirds "s1" 300 300
      ⟨"person", 9/10, [⟨2/5, 2/5⟩, ⟨3/5, 2/5⟩, ⟨3/5, 3/5⟩, ⟨2/5, 3/5⟩]⟩ []).2.1).2
      (by
        rw [hc]
        intro p hp
        simp only [thirdsPoints, List.mem_cons, List.not_mem_nil, or_false] at hp
        rcases hp with rfl | rfl | rfl | rfl <;>
          simp [abs_sub_lt_iff] <;> norm_num)
    rw [hc] at hfar
    exact hfar
  · exact (composition_rule_of_thirds "s1" 300 300
      ⟨"person", 9/10, [⟨2/5, 2/5⟩, ⟨3/5, 2/5⟩, ⟨3/5, 3/5⟩, ⟨2/5, 3/5⟩]⟩ []).2.2.2

/-! ## C4: object persistence -/

theorem lookup_fold_objs :
    ∀ (l : List DetObj) (d : List (String × DetObj)) (n : String),
    lookupAssoc (l.foldl (fun d o => updateAssoc d o.name o) d) n = none ↔
      (lookupAssoc d n = none ∧ ∀ o ∈ l, o.name ≠ n) := by
  intro l
  induction l with
  | nil => intro d n; simp
  | cons o l ih =>
    intro d n
    show lookupAssoc (l.foldl _ (updateAssoc d o.name o)) n = none ↔ _
    rw [ih]
    constructor
    · rintro ⟨h1, h2⟩
      by_cases hn : n = o.name
      · rw [hn, lookup_update_self] at h1
        exact absurd h1 (by simp)
      · rw [lookup_update_ne d o.name n o hn] at h1
        refine ⟨h1, ?_⟩
        intro x hx
        rcases List.mem_cons.1 hx with rfl | hmem
        · exact fun hh => hn hh.symm
        · exact h2 x hmem
    · rintro ⟨h1, h2⟩
      have hno : o.name ≠ n := h2 o (by simp)
      refine ⟨?_, fun x hx => h2 x (List.mem_cons.2 (Or.inr hx))⟩
      rw [lookup_update_ne d o.name n o (fun hh => hno hh.symm)]
      exact h1

theorem lookup_dictOfObjs_none (objs : List DetObj) (n : String) :
    lookupAssoc (dictOfObjs objs) n = none ↔ ∀ o ∈ objs, o.name ≠ n := by
  unfold dictOfObjs
  rw [lookup_fold_objs]
  simp [lookupAssoc]

theorem nodup_keys_update {α : Type} (d : List (String × α)) (k : String) (v : α)
    (h : (keysOf d).Nodup) : (keysOf (updateAssoc d k v)).Nodup := by
  rw [keys_update]
  by_cases hs : (lookupAssoc d k).isSome = true
  · rw [if_pos hs]; exact h
  · rw [if_neg hs]
    have hk : k ∉ keysOf d := fun hmem => hs ((mem_keys_iff_isSome d k).1 hmem)
    simp only [List.nodup_append, List.nodup_cons, List.not_mem_nil, not_false_iff,
      List.nodup_nil, and_true, true_and]
    refine ⟨h, ?_⟩
    intro x hx
    simp only [List.mem_singleton]
    intro heq
    exact hk (heq ▸ hx)

theorem nodup_keys_dictOfObjs (objs : List DetObj) :
    (keysOf (dictOfObjs objs)).Nodup := by
  have hgen : ∀ (l : List DetObj) (d : List (String × DetObj)),
      (keysOf d).Nodup →
      (keysOf (l.foldl (fun d o => updateAssoc d o.name o) d)).Nodup := by
    intro l
    induction l with
    | nil => intro d hd; exact hd
    | cons o l ih => intro d hd; exact ih _ (nodup_keys_update d o.name o hd)
  exact hgen objs [] (by simp [keysOf])

theorem mem_keys_of_mem {α : Type} {d : List (String × α)} {k : String} {v : α}
    (h : (k, v) ∈ d) : k ∈ keysOf d := by
  unfold keysOf
  exact List.mem_map.2 ⟨(k, v), h, rfl⟩

theorem mem_iff_lookup_of_nodup {α : Type} :
    ∀ (d : List (String × α)), (keysOf d).Nodup → ∀ (k : String) (v : α),
    ((k, v) ∈ d ↔ lookupAssoc d k = some v) := by
  intro d
  induction d with
  | nil => intro _ k v; simp [lookupAssoc]
  | cons p rest ih =>
    intro hn k v
    obtain ⟨k', v'⟩ := p
    rw [show keysOf ((k', v') :: rest) = k' :: keysOf rest from rfl] at hn
    have hn1 : k' ∉ keysOf rest := (List.nodup_cons.1 hn).1
    have hn2 : (keysOf rest).Nodup := (List.nodup_cons.1 hn).2
    rw [show lookupAssoc ((k', v') :: rest) k =
        (if k' = k then some v' else lookupAssoc rest k) from rfl]
    by_cases h : k' = k
    · subst h
      rw [if_pos rfl]
      simp only [List.mem_cons, Prod.mk.injEq]
      constructor
      · rintro (⟨-, rfl⟩ | hmem)
        · rfl
        · exact absurd (mem_keys_of_mem hmem) hn1
      · intro hsome
        exact Or.inl ⟨trivial, (Option.some.inj hsome).symm⟩
    · rw [if_neg h]
      rw [← ih hn2 k v]
      simp only [List.mem_cons, Prod.mk.injEq]
      constructor
      · rintro (⟨rfl, -⟩ | hmem)
        · exact absurd rfl h
        · exact hmem
      · exact fun hmem => Or.inr hmem

theorem mem_updateAssoc {α : Type} :
    ∀ (d : List (String × α)) (k : String) (v : α) (x : String × α),
    x ∈ updateAssoc d k v → x ∈ d ∨ x = (k, v) := by
  intro d
  induction d with
  | nil => intro k v x hx; simp [updateAssoc] at hx; exact Or.inr hx
  | cons p rest ih =>
    intro k v x hx
    obtain ⟨k', v'⟩ := p
    by_cases h : k' = k
    · rw [updateAssoc, if_pos h] at hx
      rcases List.mem_cons.1 hx with rfl | hmem
      · exact Or.inr rfl
      · exact Or.inl (List.mem_cons.2 (Or.inr hmem))
    · rw [updateAssoc, if_neg h] at hx
      rcases List.mem_cons.1 hx with rfl | hmem
      · exact Or.inl (by simp)
      · rcases ih k v x hmem with hh | hh
        · exact Or.inl (List.mem_cons.2 (Or.inr hh))
        · exact Or.inr hh

theorem mem_dictOfObjs (objs : List DetObj) (x : String × DetObj)
    (hx : x ∈ dictOfObjs objs) : ∃ o ∈ objs, x = (o.name, o) := by
  have hgen : ∀ (l : List DetObj) (d : List (String × DetObj)) (x : String × DetObj),
      x ∈ l.foldl (fun d o => updateAssoc d o.name o) d →
      x ∈ d ∨ ∃ o ∈ l, x = (o.name, o) := by
    intro l
    induction l with
    | nil => intro d x hx; exact Or.inl hx
    | cons o l ih =>
      intro d x hx
      rcases ih (updateAssoc d o.name o) x hx with hh | ⟨o2, ho2, rfl⟩
      · rcases mem_updateAssoc d o.name o x hh with hd | rfl
        · exact Or.inl hd
        · exact Or.inr ⟨o, by simp, rfl⟩
      · exact Or.inr ⟨o2, List.mem_cons.2 (Or.inr ho2), rfl⟩
  rcases hgen objs [] x hx with hh | hh
  · exact absurd hh (List.not_mem_nil x)
  · exact hh

theorem string_append_left_cancel (s a b : String) (h : s ++ a = s ++ b) : a = b := by
  have h2 := congrArg String.data h
  rw [String.data_append, String.data_append] at h2
  have h3 : a.data = b.data := List.append_cancel_left h2
  cases a
  cases b
  simp only at h3
  rw [h3]

theorem contObjId_inj (s1 s2 n n' : String)
    (h : contObjId s1 s2 n = contObjId s1 s2 n') : n = n' :=
  string_append_left_cancel _ n n' h

/-- C4 (confirmed): the object-persistence check builds a last-write-wins
name→record map per scene and emits one High-severity issue naming both
scenes precisely for those map entries of the earlier scene whose score
exceeds 0.7 and whose name is not carried by any object of the later scene;
with all scores at most 0.7 nothing is ever emitted. -/
theorem object_persistence (s1 s2 : String) (objs1 objs2 : List DetObj) :
    (∀ n : String,
      ((∃ iss ∈ missingObjectIssues s1 s2 objs1 objs2,
          iss.issue_id = contObjId s1 s2 n) ↔
        (∃ o : DetObj, lookupAssoc (dictOfObjs objs1) n = some o ∧
          o.score > (0.7 : ℚ) ∧ ∀ o2 ∈ objs2, o2.name ≠ n))) ∧
    (∀ iss ∈ missingObjectIssues s1 s2 objs1 objs2,
      iss.severity = "High" ∧ iss.scenes = [s1, s2]) ∧
    ((∀ o ∈ objs1, o.score ≤ (0.7 : ℚ)) →
      missingObjectIssues s1 s2 objs1 objs2 = []) := by
  refine ⟨?_, ?_, ?_⟩
  · intro n
    constructor
    · rintro ⟨iss, hmem, hid⟩
      obtain ⟨p, hp, hf⟩ := List.mem_filterMap.1 hmem
      by_cases hcond : p.2.score > (0.7 : ℚ) ∧ lookupAssoc (dictOfObjs objs2) p.1 = none
      · rw [if_pos hcond] at hf
        have hiss := Option.some.inj hf
        have hids : iss.issue_id = contObjId s1 s2 p.1 := by rw [← hiss]; rfl
        have hpn : p.1 = n := contObjId_inj s1 s2 p.1 n (by rw [← hids, hid])
        obtain ⟨o, ho, heq⟩ := mem_dictOfObjs objs1 p hp
        have hlook : lookupAssoc (dictOfObjs objs1) p.1 = some p.2 := by
          have hnod := nodup_keys_dictOfObjs objs1
          exact (mem_iff_lookup_of_nodup _ hnod p.1 p.2).1 (by rw [show (p.1, p.2) = p from rfl]; exact hp)
        refine ⟨p.2, by rw [← hpn]; exact hlook, hcond.1, ?_⟩
        intro o2 ho2
        rw [← hpn]
        exact (lookup_dictOfObjs_none objs2 p.1).1 hcond.2 o2 ho2
      · rw [if_neg hcond] at hf
        exact Option.noConfusion hf
    · rintro ⟨o, hlook, hscore, habs⟩
      have hnod := nodup_keys_dictOfObjs objs1
      have hmem : (n, o) ∈ dictOfObjs objs1 :=
        (mem_iff_lookup_of_nodup _ hnod n o).2 hlook
      refine ⟨missingObjIssue s1 s2 n, ?_, rfl⟩
      refine List.mem_filterMap.2 ⟨(n, o), hmem, ?_⟩
      rw [if_pos ⟨hscore, (lookup_dictOfObjs_none objs2 n).2 habs⟩]
  · intro iss hmem
    obtain ⟨p, hp, hf⟩ := List.mem_filterMap.1 hmem
    by_cases hcond : p.2.score > (0.7 : ℚ) ∧ lookupAssoc (dictOfObjs objs2) p.1 = none
    · rw [if_pos hcond] at hf
      rw [← Option.some.inj hf]
      exact ⟨rfl, rfl⟩
    · rw [if_neg hcond] at hf
      exact Option.noConfusion hf
  · intro hall
    refine List.filterMap_eq_nil_iff.2 ?_
    intro p hp
    obtain ⟨o, ho, rfl⟩ := mem_dictOfObjs objs1 p hp
    rw [if_neg]
    rintro ⟨hsc, -⟩
    exact absurd hsc (not_lt.2 (hall o ho))

/-- C4 (witness): a high-confidence lamp in scene 1 absent from scene 2
produces the issue; with confidences at 0.7 nothing is emitted. -/
theorem object_persistence_witness :
    (∃ o : DetObj, lookupAssoc (dictOfObjs
        [⟨"lamp", 9/10, []⟩]) "lamp" = some o ∧ o.score > (0.7 : ℚ) ∧
        ∀ o2 ∈ ([⟨"cup", 9/10, []⟩] : List DetObj), o2.name ≠ "lamp") ∧
    missingObjectIssues "s1" "s2" [⟨"lamp", 7/10, []⟩] [] = [] := by
  constructor
  · refine ⟨⟨"lamp", 9/10, []⟩, rfl, by norm_num, ?_⟩
    intro o2 ho2
    rcases List.mem_cons.1 ho2 with rfl | h
    · simp
    · exact absurd h (List.not_mem_nil o2)
  · refine (object_persistence "s1" "s2" [⟨"lamp", 7/10, []⟩] []).2.2 ?_
    intro o ho
    rcases List.mem_cons.1 ho with rfl | h
    · norm_num
    · exact absurd h (List.not_mem_nil o)

/-! ## C5: character displacement -/

theorem zip_getD {α β : Type} (d1 : α) (d2 : β) :
    ∀ (l1 : List α) (l2 : List β) (i : Nat), i < l1.length → i < l2.length →
    (l1.zip l2).getD i (d1, d2) = (l1.getD i d1, l2.getD i d2) := by
  intro l1
  induction l1 with
  | nil => intro l2 i h1 h2; simp at h1
  | cons x xs ih =>
    intro l2 i h1 h2
    cases l2 with
    | nil => simp at h2
    | cons y ys =>
      cases i with
      | zero => rfl
      | succ n =>
        show (xs.zip ys).getD n (d1, d2) = (xs.getD n d1, ys.getD n d2)
        exact ih ys n (by simpa using h1) (by simpa using h2)

/-- C5 (confirmed): the displacement check is skipped entirely when the two
scenes report different face counts; with equal counts, faces are paired by
index and a Medium-severity issue is emitted for exactly those indices where
the horizontal distance between the two centroids (vertex sums divided by 4)
exceeds 0.4. -/
theorem character_displacement (s1 s2 : String) (f1 f2 : List Face) :
    (f1.length ≠ f2.length → facePositionIssues s1 s2 f1 f2 = []) ∧
    (f1.length = f2.length →
      facePositionIssues s1 s2 f1 f2 =
        ((natRangeFrom 0 f1.length).filter (fun i =>
          decide (|(faceCenter (f1.getD i {})).1 -
            (faceCenter (f2.getD i {})).1| > (0.4 : ℚ)))).map
          (facePosIssue s1 s2)) := by
  constructor
  · intro hne
    unfold facePositionIssues
    by_cases he : (f1.isEmpty || f2.isEmpty) = true
    · rw [if_pos he]
    · rw [if_neg he, if_neg hne]
  · intro heq
    unfold facePositionIssues
    by_cases he : (f1.isEmpty || f2.isEmpty) = true
    · rw [if_pos he]
      have he2 : f1.isEmpty = true ∨ f2.isEmpty = true := by simpa using he
      have h0 : f1.length = 0 := by
        rcases he2 with hh | hh
        · simpa using List.isEmpty_iff.1 hh
        · rw [heq]; simpa using List.isEmpty_iff.1 hh
      rw [h0]
      rfl
    · rw [if_neg he, if_pos heq]
      have happ := withIdx_filterMap_eq (α := Face × Face) (β := ValidationIssue)
        (({}, {}) : Face × Face)
        (fun i p => decide (|(faceCenter p.1).1 - (faceCenter p.2).1| > (0.4 : ℚ)))
        (fun i p => facePosIssue s1 s2 i) (f1.zip f2) 0
      simp only [decide_eq_true_eq] at happ
      rw [happ]
      have hzl : (f1.zip f2).length = f1.length := by
        rw [List.length_zip, heq, min_self]
      rw [hzl]
      have hpt : ∀ i ∈ natRangeFrom 0 f1.length,
          (f1.zip f2).getD (i - 0) ({}, {}) = (f1.getD i {}, f2.getD i {}) := by
        intro i hi
        have hb := (mem_natRangeFrom f1.length 0 i).1 hi
        rw [Nat.sub_zero]
        exact zip_getD {} {} f1 f2 i (by omega) (by omega)
      rw [List.filter_congr (fun i hi => by rw [hpt i hi])]

/-- C5 (witness): two single-face scenes whose face centroids are 0.9 apart
horizontally yield the index-0 issue; a 1-face vs 0-face pair is skipped. -/
theorem character_displacement_witness :
    facePositionIssues "s1" "s2"
        [{ vertices := [⟨0, 0⟩, ⟨1/10, 0⟩, ⟨1/10, 1/10⟩, ⟨0, 1/10⟩] }]
        [{ vertices := [⟨9/10, 0⟩, ⟨1, 0⟩, ⟨1, 1/10⟩, ⟨9/10, 1/10⟩] }] =
      [facePosIssue "s1" "s2" 0] ∧
    facePositionIssues "s1" "s2" [{ vertices := ([] : List Vertex) }] [] = [] := by
  constructor
  · have h := (character_displacement "s1" "s2"
      [{ vertices := [⟨0, 0⟩, ⟨1/10, 0⟩, ⟨1/10, 1/10⟩, ⟨0, 1/10⟩] }]
      [{ vertices := [⟨9/10, 0⟩, ⟨1, 0⟩, ⟨1, 1/10⟩, ⟨9/10, 1/10⟩] }]).2 rfl
    rw [h]
    have h1 : (faceCenter ({ vertices := [⟨0, 0⟩, ⟨1/10, 0⟩, ⟨1/10, 1/10⟩, ⟨0, 1/10⟩] } :
        Face)).1 = 1/20 := by
      simp [faceCenter]
      norm_num
    have h2 : (faceCenter ({ vertices := [⟨9/10, 0⟩, ⟨1, 0⟩, ⟨1, 1/10⟩, ⟨9/10, 1/10⟩] } :
        Face)).1 = 19/20 := by
      simp [faceCenter]
      norm_num
    have hgt : |(faceCenter ({ vertices := [⟨0, 0⟩, ⟨1/10, 0⟩, ⟨1/10, 1/10⟩, ⟨0, 1/10⟩] } :
        Face)).1 - (faceCenter ({ vertices := [⟨9/10, 0⟩, ⟨1, 0⟩, ⟨1, 1/10⟩, ⟨9/10, 1/10⟩] } :
        Face)).1| > (0.4 : ℚ) := by
      rw [h1, h2]
      rw [show (1/20 : ℚ) - 19/20 = -(9/10) from by norm_num, abs_neg,
        abs_of_nonneg (by norm_num : (0:ℚ) ≤ 9/10)]
      norm_num
    have htest : decide (|(faceCenter (([{ vertices :=
          [⟨0, 0⟩, ⟨1/10, 0⟩, ⟨1/10, 1/10⟩, ⟨0, 1/10⟩] }] : List Face).getD 0 {})).1 -
        (faceCenter (([{ vertices := [⟨9/10, 0⟩, ⟨1, 0⟩, ⟨1, 1/10⟩, ⟨9/10, 1/10⟩] }] :
          List Face).getD 0 {})).1| > (0.4 : ℚ)) = true := decide_eq_true hgt
    rw [show natRangeFrom 0 ([({ vertices :=
        [⟨0, 0⟩, ⟨1/10, 0⟩, ⟨1/10, 1/10⟩, ⟨0, 1/10⟩] } : Face)] : List Face).length =
        [0] from rfl]
    rw [List.filter_cons, htest]
    rfl
  · exact (character_displacement "s1" "s2" [{ vertices := ([] : List Vertex) }] []).1
      (by simp)

/-! ## C6, C7, C9: orchestration lemmas -/

theorem flatMap_congr {α β : Type} {f g : α → List β} :
    ∀ (l : List α), (∀ a ∈ l, f a = g a) → l.flatMap f = l.flatMap g := by
  intro l
  induction l with
  | nil => intro; rfl
  | cons a l ih =>
    intro h
    show f a ++ l.flatMap f = g a ++ l.flatMap g
    rw [h a (by simp), ih (fun x hx => h x (by simp [hx]))]

theorem scenePath_processScene (env : Env) (scenes : List (String × SceneRec))
    (sid id : String) :
    scenePath (processScene env scenes sid).1 id = scenePath scenes id := by
  unfold processScene scenePath
  dsimp only
  by_cases h : id = sid
  · subst h
    rw [lookup_update_self]
    rfl
  · rw [lookup_update_ne _ _ _ _ h]

theorem scenePath_processAll (env : Env) :
    ∀ (order : List String) (scenes : List (String × SceneRec)) (id : String),
    scenePath (processAll env scenes order).1 id = scenePath scenes id := by
  intro order
  induction order with
  | nil => intro scenes id; rfl
  | cons sid rest ih =>
    intro scenes id
    show scenePath (processAll env (processScene env scenes sid).1 rest).1 id = _
    rw [ih, scenePath_processScene]

theorem isSome_processScene (env : Env) (scenes : List (String × SceneRec))
    (sid id : String) :
    (lookupAssoc (processScene env scenes sid).1 id).isSome =
      ((lookupAssoc scenes id).isSome || decide (id = sid)) := by
  unfold processScene
  dsimp only
  exact isSome_lookup_update scenes sid id _

theorem isSome_processAll (env : Env) :
    ∀ (order : List String) (scenes : List (String × SceneRec)) (id : String),
    (∀ sid ∈ order, (lookupAssoc scenes sid).isSome = true) →
    (lookupAssoc (processAll env scenes order).1 id).isSome =
      (lookupAssoc scenes id).isSome := by
  intro order
  induction order with
  | nil => intro scenes id _; rfl
  | cons sid rest ih =>
    intro scenes id hall
    show (lookupAssoc (processAll env (processScene env scenes sid).1 rest).1 id).isSome = _
    rw [ih _ id (fun s hs => by
      rw [isSome_processScene]
      rw [hall s (by simp [hs])]
      rfl)]
    rw [isSome_processScene]
    by_cases h : id = sid
    · subst h
      rw [hall id (by simp)]
      rfl
    · simp [h]

theorem length_processScene (env : Env) (scenes : List (String × SceneRec))
    (sid : String) (h : (lookupAssoc scenes sid).isSome = true) :
    (processScene env scenes sid).1.length = scenes.length := by
  unfold processScene
  dsimp only
  exact length_update_of_isSome scenes sid _ h

theorem length_processAll (env : Env) :
    ∀ (order : List String) (scenes : List (String × SceneRec)),
    (∀ sid ∈ order, (lookupAssoc scenes sid).isSome = true) →
    (processAll env scenes order).1.length = scenes.length := by
  intro order
  induction order with
  | nil => intro scenes _; rfl
  | cons sid rest ih =>
    intro scenes hall
    show (processAll env (processScene env scenes sid).1 rest).1.length = _
    rw [ih _ (fun s hs => by
      rw [isSome_processScene]
      rw [hall s (by simp [hs])]
      rfl)]
    exact length_processScene env scenes sid (hall sid (by simp))

theorem lookup_processAll_not_mem (env : Env) :
    ∀ (order : List String) (scenes : List (String × SceneRec)) (id : String),
    id ∉ order →
    lookupAssoc (processAll env scenes order).1 id = lookupAssoc scenes id := by
  intro order
  induction order with
  | nil => intro scenes id _; rfl
  | cons sid rest ih =>
    intro scenes id hmem
    have h1 : id ≠ sid := fun h => hmem (by simp [h])
    have h2 : id ∉ rest := fun h => hmem (by simp [h])
    show lookupAssoc (processAll env (processScene env scenes sid).1 rest).1 id = _
    rw [ih _ id h2]
    unfold processScene
    dsimp only
    exact lookup_update_ne _ _ _ _ h1

theorem ann_processAll (env : Env) :
    ∀ (order : List String) (scenes : List (String × SceneRec)) (id : String),
    id ∈ order →
    ((lookupAssoc (processAll env scenes order).1 id).getD dummyScene).annotations =
      env.annotate (scenePath scenes id) := by
  intro order
  induction order with
  | nil => intro scenes id h; simp at h
  | cons sid rest ih =>
    intro scenes id hmem
    by_cases hr : id ∈ rest
    · show ((lookupAssoc (processAll env (processScene env scenes sid).1 rest).1
          id).getD dummyScene).annotations = _
      rw [ih _ id hr, scenePath_processScene]
    · have hid : id = sid := by
        rcases List.mem_cons.1 hmem with h | h
        · exact h
        · exact absurd h hr
      subst hid
      show ((lookupAssoc (processAll env (processScene env scenes id).1 rest).1
          id).getD dummyScene).annotations = _
      rw [lookup_processAll_not_mem env rest _ id hr]
      unfold processScene scenePath
      dsimp only
      rw [lookup_update_self]
      rfl

theorem processAll_issues_congr (env : Env) :
    ∀ (order : List String) (scenes scenes' : List (String × SceneRec)),
    (∀ id ∈ order, scenePath scenes id = scenePath scenes' id) →
    (processAll env scenes order).2 = (processAll env scenes' order).2 := by
  intro order
  induction order with
  | nil => intro scenes scenes' _; rfl
  | cons sid rest ih =>
    intro scenes scenes' hagree
    show (processScene env scenes sid).2 ++
        (processAll env (processScene env scenes sid).1 rest).2 = _
    have hpath : scenePath scenes sid = scenePath scenes' sid := hagree sid (by simp)
    have hcomp : (processScene env scenes sid).2 = (processScene env scenes' sid).2 := by
      unfold processScene
      dsimp only
      unfold scenePath at hpath
      rw [hpath]
    have hagree2 : ∀ id ∈ rest, scenePath (processScene env scenes sid).1 id =
        scenePath (processScene env scenes' sid).1 id := by
      intro id hid
      rw [scenePath_processScene env scenes sid id,
        scenePath_processScene env scenes' sid id]
      exact hagree id (by simp [hid])
    rw [hcomp, ih _ _ hagree2]
    rfl

theorem adjacentPairs_mem :
    ∀ (order : List String) (p : String × String),
    p ∈ adjacentPairs order → p.1 ∈ order ∧ p.2 ∈ order := by
  intro order
  induction order with
  | nil => intro p hp; simp [adjacentPairs] at hp
  | cons a rest ih =>
    intro p hp
    cases rest with
    | nil => simp [adjacentPairs] at hp
    | cons b rest2 =>
      rw [show adjacentPairs (a :: b :: rest2) =
          (a, b) :: adjacentPairs (b :: rest2) from rfl] at hp
      rcases List.mem_cons.1 hp with rfl | hmem
      · simp
      · obtain ⟨h1, h2⟩ := ih p hmem
        exact ⟨List.mem_cons.2 (Or.inr h1), List.mem_cons.2 (Or.inr h2)⟩

theorem continuity_after_congr (env : Env) (order : List String)
    (scenes scenes' : List (String × SceneRec))
    (hagree : ∀ id ∈ order, scenePath scenes id = scenePath scenes' id) :
    continuityIssues (processAll env scenes order).1 order =
      continuityIssues (processAll env scenes' order).1 order := by
  unfold continuityIssues
  apply flatMap_congr
  intro p hp
  obtain ⟨h1, h2⟩ := adjacentPairs_mem order p hp
  rw [ann_processAll env order scenes p.1 h1, ann_processAll env order scenes p.2 h2,
      ann_processAll env order scenes' p.1 h1, ann_processAll env order scenes' p.2 h2,
      hagree p.1 h1, hagree p.2 h2]

theorem reachable_inv (st : VState) (hr : Reachable st) :
    (∀ id, (lookupAssoc st.scenes id).isSome = true ↔ id ∈ st.scene_order) ∧
    (st.scenes = [] → st.scene_order = [] ∧ st.results = ⟨[], 0⟩) := by
  induction hr with
  | init =>
    constructor
    · intro id
      simp [lookupAssoc]
    · intro
      exact ⟨rfl, rfl⟩
  | add fs path id_ ts md hrec hadd ih =>
    rename_i st st2 w
    by_cases hfs : fs path = true
    · unfold addScene at hadd
      rw [if_pos hfs] at hadd
      have h2 := Except.ok.inj hadd
      have hst2 : st2 = { st with
          scenes := updateAssoc st.scenes id_ ⟨path, ts, md, {}⟩,
          scene_order := if id_ ∈ st.scene_order then st.scene_order
            else st.scene_order ++ [id_] } := by
        have h3 := congrArg Prod.fst h2
        simp only [Prod.fst] at h3
        exact h3.symm
      subst hst2
      constructor
      · intro id
        show (lookupAssoc (updateAssoc st.scenes id_ _) id).isSome = true ↔ _
        rw [isSome_lookup_update]
        by_cases hid : id = id_
        · subst hid
          simp only [decide_True, Bool.or_true, true_iff]
          by_cases hmem : id ∈ st.scene_order
          · rw [if_pos hmem]; exact hmem
          · rw [if_neg hmem]; simp
        · simp only [hid, decide_False, Bool.or_false]
          rw [ih.1 id]
          by_cases hmem : id_ ∈ st.scene_order
          · rw [if_pos hmem]
          · rw [if_neg hmem]
            constructor
            · intro h; exact List.mem_append.2 (Or.inl h)
            · intro h
              rcases List.mem_append.1 h with h | h
              · exact h
              · simp at h; exact absurd h hid
      · intro hempty
        exact absurd hempty (update_ne_nil _ _ _)
    · unfold addScene at hadd
      rw [if_neg hfs] at hadd
      exact Except.noConfusion hadd
  | run env hst ih =>
    rename_i st
    by_cases hempty : st.scenes.isEmpty = true
    · have h1 : (validate env st).1 = st := by
        unfold validate
        rw [if_pos hempty]
      rw [h1]
      exact ih
    · have h1 : (validate env st).1 = { st with
          scenes := (processAll env st.scenes st.scene_order).1,
          results := ⟨(processAll env st.scenes st.scene_order).2 ++
            continuityIssues (processAll env st.scenes st.scene_order).1 st.scene_order,
            st.scenes.length⟩ } := by
        unfold validate
        rw [if_neg hempty]
      rw [h1]
      have horder : ∀ sid ∈ st.scene_order, (lookupAssoc st.scenes sid).isSome = true :=
        fun sid hs => (ih.1 sid).2 hs
      constructor
      · intro id
        show (lookupAssoc (processAll env st.scenes st.scene_order).1 id).isSome = true ↔ _
        rw [isSome_processAll env st.scene_order st.scenes id horder]
        exact ih.1 id
      · intro hempty2
        dsimp only at hempty2
        exfalso
        obtain ⟨p, rest, hcons⟩ : ∃ p rest, st.scenes = p :: rest := by
          cases hsc : st.scenes with
          | nil => rw [hsc] at hempty; simp at hempty
          | cons p rest => exact ⟨p, rest, rfl⟩
        have hk : (lookupAssoc st.scenes p.1).isSome = true := by
          rw [hcons]
          show (lookupAssoc (p :: rest) p.1).isSome = true
          obtain ⟨k, v⟩ := p
          simp [lookupAssoc]
        have hk2 : (lookupAssoc (processAll env st.scenes st.scene_order).1 p.1).isSome = true := by
          rw [isSome_processAll env st.scene_order st.scenes p.1 horder]
          exact hk
        rw [hempty2] at hk2
        simp [lookupAssoc] at hk2

/-- C6 (confirmed): from any state reachable through the tool's API, calling
`validate` on an empty scene set returns a result with zero issues and
scene_count 0 and leaves the state unchanged (no exception is modelled:
`validate` is total); and on every run over a non-empty scene set the
returned result is computed afresh, independent of any prior result set. -/
theorem validate_empty_discards (env : Env) (st : VState) (hr : Reachable st)
    (he : st.scenes = []) :
    (validate env st).2.issues = [] ∧ (validate env st).2.scene_count = 0 ∧
    (validate env st).1 = st ∧
    (∀ (st' : VState) (r r' : ValidationResults), st'.scenes ≠ [] →
      (validate env { st' with results := r }).2 =
        (validate env { st' with results := r' }).2) := by
  have hres := (reachable_inv st hr).2 he
  have hisE : st.scenes.isEmpty = true := by rw [he]; rfl
  have h1 : validate env st = (st, st.results) := by
    unfold validate
    rw [if_pos hisE]
  refine ⟨?_, ?_, ?_, ?_⟩
  · rw [h1, hres.2]
  · rw [h1, hres.2]
  · rw [h1]
  · intro st' r r' hne
    have hisE' : ∀ rr : ValidationResults,
        ({ st' with results := rr } : VState).scenes.isEmpty = false := by
      intro rr
      show st'.scenes.isEmpty = false
      cases hsc : st'.scenes with
      | nil => exact absurd hsc hne
      | cons p rest => rfl
    unfold validate
    rw [if_neg (by rw [hisE' r]; exact fun h => Bool.noConfusion h),
        if_neg (by rw [hisE' r']; exact fun h => Bool.noConfusion h)]

/-- C6 (witness): the freshly constructed validator has an empty scene set;
validating returns zero issues and scene count 0. -/
theorem validate_empty_discards_witness :
    (validate ⟨fun _ => {}, fun _ => (100, 100)⟩ ⟨[], [], {}⟩).2.issues = [] ∧
    (validate ⟨fun _ => {}, fun _ => (100, 100)⟩ ⟨[], [], {}⟩).2.scene_count = 0 := by
  have h := validate_empty_discards ⟨fun _ => {}, fun _ => (100, 100)⟩ ⟨[], [], {}⟩
    Reachable.init rfl
  exact ⟨h.1, h.2.1⟩

/-- C7 (confirmed): `add_scene` raises the not-found error when the path
does not exist (before any mutation: the error branch returns no new state);
otherwise the record is stored under the id (overwriting any previous one,
with the warning flag set exactly when the id already existed), all other
entries are untouched, the key sequence keeps its order — an existing id
keeps its position, a new id is appended — and the separate order list is
unchanged for an existing id and appended-to for a new one. -/
theorem add_scene_contract (fs : String → Bool) (st : VState)
    (path id_ : String) (ts : Option String) (md : List (String × String)) :
    (fs path = false → addScene fs st path id_ ts md =
      Except.error ("Scene file not found: " ++ path)) ∧
    (fs path = true → ∃ st2 w, addScene fs st path id_ ts md = Except.ok (st2, w) ∧
      lookupAssoc st2.scenes id_ = some ⟨path, ts, md, {}⟩ ∧
      (∀ k, k ≠ id_ → lookupAssoc st2.scenes k = lookupAssoc st.scenes k) ∧
      w = (lookupAssoc st.scenes id_).isSome ∧
      keysOf st2.scenes = (if (lookupAssoc st.scenes id_).isSome
        then keysOf st.scenes else keysOf st.scenes ++ [id_]) ∧
      (id_ ∈ st.scene_order → st2.scene_order = st.scene_order) ∧
      (id_ ∉ st.scene_order → st2.scene_order = st.scene_order ++ [id_]) ∧
      st2.results = st.results) := by
  constructor
  · intro hfs
    unfold addScene
    rw [hfs]
    rfl
  · intro hfs
    refine ⟨{ st with
        scenes := updateAssoc st.scenes id_ ⟨path, ts, md, {}⟩,
        scene_order := if id_ ∈ st.scene_order then st.scene_order
          else st.scene_order ++ [id_] },
      (lookupAssoc st.scenes id_).isSome, ?_, ?_, ?_, rfl, ?_, ?_, ?_, rfl⟩
    · unfold addScene
      rw [if_pos hfs]
    · exact lookup_update_self st.scenes id_ _
    · exact fun k hk => lookup_update_ne st.scenes id_ k _ hk
    · exact keys_update st.scenes id_ _
    · intro hmem
      show (if id_ ∈ st.scene_order then st.scene_order
        else st.scene_order ++ [id_]) = st.scene_order
      rw [if_pos hmem]
    · intro hmem
      show (if id_ ∈ st.scene_order then st.scene_order
        else st.scene_order ++ [id_]) = st.scene_order ++ [id_]
      rw [if_neg hmem]

/-- C7 (witness): adding `s1` to a fresh validator with an existing file. -/
theorem add_scene_contract_witness :
    addScene (fun _ => false) ⟨[], [], {}⟩ "bad.jpg" "s1" none [] =
      Except.error ("Scene file not found: " ++ "bad.jpg") ∧
    (∃ st2 w, addScene (fun _ => true) ⟨[], [], {}⟩ "scene1.jpg" "s1" none [] =
      Except.ok (st2, w) ∧
      lookupAssoc st2.scenes "s1" = some ⟨"scene1.jpg", none, [], {}⟩ ∧
      (∀ k, k ≠ "s1" → lookupAssoc st2.scenes k =
        lookupAssoc ([] : List (String × SceneRec)) k) ∧
      w = (lookupAssoc ([] : List (String × SceneRec)) "s1").isSome ∧
      keysOf st2.scenes = (if (lookupAssoc ([] : List (String × SceneRec)) "s1").isSome
        then keysOf ([] : List (String × SceneRec))
        else keysOf ([] : List (String × SceneRec)) ++ ["s1"]) ∧
      ("s1" ∈ ([] : List String) → st2.scene_order = []) ∧
      ("s1" ∉ ([] : List String) → st2.scene_order = [] ++ ["s1"]) ∧
      st2.results = ({} : ValidationResults)) := by
  constructor
  · exact (add_scene_contract (fun _ => false) ⟨[], [], {}⟩ "bad.jpg" "s1" none []).1 rfl
  · exact (add_scene_contract (fun _ => true) ⟨[], [], {}⟩ "scene1.jpg" "s1" none []).2 rfl

/-- C9 (confirmed): running `validate` twice on a reachable validator state
with the same external annotation environment yields identical issue lists
and identical scene counts — the heuristics are deterministic functions of
the scene order, the stored paths and the environment, and the first run
changes none of those. -/
theorem validate_deterministic (env : Env) (st : VState) (hr : Reachable st) :
    (validate env (validate env st).1).2.issues = (validate env st).2.issues ∧
    (validate env (validate env st).1).2.scene_count =
      (validate env st).2.scene_count := by
  by_cases hisE : st.scenes.isEmpty = true
  · have h1 : validate env st = (st, st.results) := by
      unfold validate
      rw [if_pos hisE]
    have h2 : (validate env st).1 = st := by rw [h1]
    rw [h2, h1]
    exact ⟨rfl, rfl⟩
  · have horder : ∀ sid ∈ st.scene_order, (lookupAssoc st.scenes sid).isSome = true :=
      fun sid hs => ((reachable_inv st hr).1 sid).2 hs
    have h1 : validate env st = ({ st with
        scenes := (processAll env st.scenes st.scene_order).1,
        results := ⟨(processAll env st.scenes st.scene_order).2 ++
          continuityIssues (processAll env st.scenes st.scene_order).1 st.scene_order,
          st.scenes.length⟩ },
        ⟨(processAll env st.scenes st.scene_order).2 ++
          continuityIssues (processAll env st.scenes st.scene_order).1 st.scene_order,
          st.scenes.length⟩) := by
      unfold validate
      rw [if_neg hisE]
    have hne2 : ((processAll env st.scenes st.scene_order).1).isEmpty = false := by
      obtain ⟨p, rest, hcons⟩ : ∃ p rest, st.scenes = p :: rest := by
        cases hsc : st.scenes with
        | nil => rw [hsc] at hisE; simp at hisE
        | cons p rest => exact ⟨p, rest, rfl⟩
      have hk : (lookupAssoc st.scenes p.1).isSome = true := by
        rw [hcons]
        obtain ⟨k, v⟩ := p
        simp [lookupAssoc]
      have hk2 : (lookupAssoc (processAll env st.scenes st.scene_order).1 p.1).isSome
          = true := by
        rw [isSome_processAll env st.scene_order st.scenes p.1 horder]
        exact hk
      cases hpa : (processAll env st.scenes st.scene_order).1 with
      | nil => rw [hpa] at hk2; simp [lookupAssoc] at hk2
      | cons q rest2 => rfl
    have hagree : ∀ id ∈ st.scene_order,
        scenePath (processAll env st.scenes st.scene_order).1 id =
          scenePath st.scenes id :=
      fun id _ => scenePath_processAll env st.scene_order st.scenes id
    have h2 : validate env (validate env st).1 = ({ st with
        scenes := (processAll env (processAll env st.scenes st.scene_order).1
          st.scene_order).1,
        results := ⟨(processAll env (processAll env st.scenes st.scene_order).1
            st.scene_order).2 ++
          continuityIssues (processAll env (processAll env st.scenes st.scene_order).1
            st.scene_order).1 st.scene_order,
          (processAll env st.scenes st.scene_order).1.length⟩ },
        ⟨(processAll env (processAll env st.scenes st.scene_order).1 st.scene_order).2 ++
          continuityIssues (processAll env (processAll env st.scenes st.scene_order).1
            st.scene_order).1 st.scene_order,
          (processAll env st.scenes st.scene_order).1.length⟩) := by
      rw [h1]
      unfold validate
      rw [if_neg (by rw [hne2]; exact fun h => Bool.noConfusion h)]
    rw [h2, h1]
    dsimp only
    constructor
    · rw [processAll_issues_congr env st.scene_order _ _ hagree]
      rw [continuity_after_congr env st.scene_order _ _ hagree]
    · rw [length_processAll env st.scene_order st.scenes horder]

/-- C9 (witness): a one-scene reachable state, validated twice. -/
theorem validate_deterministic_witness :
    (validate ⟨fun _ => {}, fun _ => (256, 256)⟩
      (validate ⟨fun _ => {}, fun _ => (256, 256)⟩
        ⟨[("s1", ⟨"p.jpg", none, [], {}⟩)], ["s1"], {}⟩).1).2.issues =
    (validate ⟨fun _ => {}, fun _ => (256, 256)⟩
      ⟨[("s1", ⟨"p.jpg", none, [], {}⟩)], ["s1"], {}⟩).2.issues := by
  have hadd : addScene (fun _ => true) ⟨[], [], {}⟩ "p.jpg" "s1" none [] =
      Except.ok (⟨[("s1", ⟨"p.jpg", none, [], {}⟩)], ["s1"], {}⟩, false) := rfl
  have hr : Reachable ⟨[("s1", ⟨"p.jpg", none, [], {}⟩)], ["s1"], {}⟩ :=
    Reachable.add (fun _ => true) "p.jpg" "s1" none [] Reachable.init hadd
  exact (validate_deterministic ⟨fun _ => {}, fun _ => (256, 256)⟩ _ hr).1

/-! ## C8, C10: storyboard shot fallback and frame synthesis -/

theorem get?_withIdx {α : Type} :
    ∀ (l : List α) (s k : Nat),
    (withIdx s l).get? k = (l.get? k).map (fun a => (s + k, a)) := by
  intro l
  induction l with
  | nil => intro s k; simp [withIdx]
  | cons a l ih =>
    intro s k
    cases k with
    | zero => simp [withIdx]
    | succ n =>
      show (withIdx (s + 1) l).get? n = ((a :: l).get? (n + 1)).map _
      rw [ih (s + 1) n]
      rw [show ((a :: l).get? (n + 1)) = l.get? n from rfl]
      cases hg : l.get? n with
      | none => rfl
      | some x =>
        show some (s + 1 + n, x) = some (s + (n + 1), x)
        rw [show s + 1 + n = s + (n + 1) from by omega]

/-- C8 (confirmed): a failed generation call or an unparseable response for
a segment yields exactly the single wide/static fallback shot for that
segment, and the shot list of every other segment is a function of that
segment's own outcome only, so one segment's failure never affects its
siblings. -/
theorem shot_fallback_isolation (segs : List ScriptScene)
    (gen gen' : Nat → GenOutcome) (j : Nat) :
    (∀ sc : ScriptScene,
      analyzeSceneForShots sc GenOutcome.badJson = [fallbackShot sc.heading] ∧
      analyzeSceneForShots sc GenOutcome.failed = [fallbackShot sc.heading] ∧
      fallbackShot sc.heading =
        ⟨"Establishing shot for " ++ sc.heading, "WS", "STATIC", [], []⟩) ∧
    ((gen j = GenOutcome.badJson ∨ gen j = GenOutcome.failed) → j < segs.length →
      (shotsForSegments segs gen).get? j =
        some [fallbackShot ((segs.getD j ⟨"", "", []⟩).heading)]) ∧
    ((∀ k, k ≠ j → gen k = gen' k) → ∀ k, k ≠ j →
      (shotsForSegments segs gen).get? k = (shotsForSegments segs gen').get? k) := by
  have hget : ∀ (g : Nat → GenOutcome) (k : Nat),
      (shotsForSegments segs g).get? k =
        (segs.get? k).map (fun sc => analyzeSceneForShots sc (g (0 + k))) := by
    intro g k
    unfold shotsForSegments
    rw [List.get?_map, get?_withIdx]
    cases hg : segs.get? k with
    | none => rfl
    | some sc => rfl
  refine ⟨fun sc => ⟨rfl, rfl, rfl⟩, ?_, ?_⟩
  · intro hbad hj
    rw [hget gen j]
    cases hg : segs.get? j with
    | none =>
      rw [List.get?_eq_none] at hg
      omega
    | some sc =>
      have hgd : segs.getD j ⟨"", "", []⟩ = sc := by
        rw [List.getD_eq_get?, hg]
        rfl
      rw [hgd]
      show some (analyzeSceneForShots sc (gen (0 + j))) = some [fallbackShot sc.heading]
      rw [show (0 + j) = j from by omega]
      rcases hbad with hb | hb
      · rw [hb]; rfl
      · rw [hb]; rfl
  · intro hk k hkj
    rw [hget gen k, hget gen' k]
    rw [show (0 + k) = k from by omega, hk k hkj]

/-- C8 (witness): segment 0 has a bad JSON response, segment 1 parses fine;
segment 0 gets exactly the wide/static fallback and segment 1's list is
what its own outcome supplies, unchanged if segment 0's outcome changes. -/
theorem shot_fallback_isolation_witness :
    (shotsForSegments [⟨"scene_1", "H1", []⟩, ⟨"scene_2", "H2", []⟩]
      (fun k => if k = 0 then GenOutcome.badJson
        else GenOutcome.ok [⟨"d", "CU", "PAN", [], []⟩])).get? 0 =
      some [fallbackShot "H1"] ∧
    (shotsForSegments [⟨"scene_1", "H1", []⟩, ⟨"scene_2", "H2", []⟩]
      (fun k => if k = 0 then GenOutcome.badJson
        else GenOutcome.ok [⟨"d", "CU", "PAN", [], []⟩])).get? 1 =
    (shotsForSegments [⟨"scene_1", "H1", []⟩, ⟨"scene_2", "H2", []⟩]
      (fun k => if k = 0 then GenOutcome.failed
        else GenOutcome.ok [⟨"d", "CU", "PAN", [], []⟩])).get? 1 := by
  constructor
  · exact (shot_fallback_isolation [⟨"scene_1", "H1", []⟩, ⟨"scene_2", "H2", []⟩]
      (fun k => if k = 0 then GenOutcome.badJson
        else GenOutcome.ok [⟨"d", "CU", "PAN", [], []⟩])
      (fun k => if k = 0 then GenOutcome.failed
        else GenOutcome.ok [⟨"d", "CU", "PAN", [], []⟩]) 0).2.1
      (Or.inl rfl) (by decide)
  · exact (shot_fallback_isolation [⟨"scene_1", "H1", []⟩, ⟨"scene_2", "H2", []⟩]
      (fun k => if k = 0 then GenOutcome.badJson
        else GenOutcome.ok [⟨"d", "CU", "PAN", [], []⟩])
      (fun k => if k = 0 then GenOutcome.failed
        else GenOutcome.ok [⟨"d", "CU", "PAN", [], []⟩]) 0).2.2
      (fun k hk => by simp [hk]) 1 (by decide)

/-- C10 (confirmed): every produced frame's id embeds the 1-based position
of its shot in the input shot list, a shot whose image generation fails
yields no frame while the surviving frames keep their original indices, so
the frame-id sequence of a segment can contain gaps. -/
theorem frame_ids_keep_positions (sc : ScriptScene) (shots : List Shot)
    (outDir : String) (img : Nat → ImgOutcome) :
    generateFramesForShots sc shots outDir img =
      ((natRangeFrom 0 shots.length).filter
        (fun i => decide (img i = ImgOutcome.ok))).map
        (fun i => mkFrame sc outDir i (shots.getD i ⟨"", "", "", [], []⟩)) ∧
    (∀ fr ∈ generateFramesForShots sc shots outDir img, ∃ i, i < shots.length ∧
      img i = ImgOutcome.ok ∧
      fr.frame_id = sc.scene_id ++ "_shot_" ++ toString (i + 1) ∧
      fr = mkFrame sc outDir i (shots.getD i ⟨"", "", "", [], []⟩)) := by
  have happ := withIdx_filterMap_eq (α := Shot) (β := StoryboardFrame)
    (⟨"", "", "", [], []⟩ : Shot)
    (fun i a => decide (img i = ImgOutcome.ok))
    (fun i a => mkFrame sc outDir i a) shots 0
  simp only [decide_eq_true_eq] at happ
  have h1 : generateFramesForShots sc shots outDir img =
      ((natRangeFrom 0 shots.length).filter
        (fun i => decide (img i = ImgOutcome.ok))).map
        (fun i => mkFrame sc outDir i (shots.getD i ⟨"", "", "", [], []⟩)) := by
    unfold generateFramesForShots
    rw [happ]
    apply List.map_congr_left
    intro i hi
    rw [Nat.sub_zero]
  refine ⟨h1, ?_⟩
  intro fr hfr
  rw [h1] at hfr
  obtain ⟨i, hi, rfl⟩ := List.mem_map.1 hfr
  obtain ⟨hir, hok⟩ := List.mem_filter.1 hi
  have hb := (mem_natRangeFrom shots.length 0 i).1 hir
  refine ⟨i, by omega, by simpa using hok, rfl, rfl⟩

/-- C10 (witness): three shots with the middle image generation failing
produce frames `_shot_1` and `_shot_3` — a gap, no renumbering. -/
theorem frame_ids_keep_positions_witness :
    (generateFramesForShots ⟨"scene_1", "H", []⟩
      [⟨"a", "WS", "STATIC", [], []⟩, ⟨"b", "CU", "PAN", [], []⟩,
        ⟨"c", "MS", "TILT", [], []⟩] "out"
      (fun i => if i = 1 then ImgOutcome.failed else ImgOutcome.ok)).map
        StoryboardFrame.frame_id = ["scene_1_shot_1", "scene_1_shot_3"] := by
  have h := (frame_ids_keep_positions ⟨"scene_1", "H", []⟩
    [⟨"a", "WS", "STATIC", [], []⟩, ⟨"b", "CU", "PAN", [], []⟩,
      ⟨"c", "MS", "TILT", [], []⟩] "out"
    (fun i => if i = 1 then ImgOutcome.failed else ImgOutcome.ok)).1
  rw [h]
  rfl
